import Mathlib

/-!
# Verification of the tough-cookie cookie engine (src/cookie.js)

A shallow embedding of the RFC 6265 cookie engine: strings are `List Char`,
JavaScript `Date` values are epoch milliseconds (`Int`), `null`/`undefined`
are `Option`, and the callback-passing jar operations are rendered as pure
functions returning an outcome together with the updated store.

External collaborators that are not part of the sources (the public-suffix
oracle, `net.isIP`, `pathMatch`, `permuteDomain`, and the in-memory store)
are modelled from the specification; each such definition is marked
`Modelled from the spec:` in its doc comment.
-/

set_option maxRecDepth 10000

abbrev Str := List Char

/-- JavaScript whitespace class used by `String.prototype.trim` and by the
`\s` regex class (ASCII part plus NBSP / BOM, which `trim` also strips). -/
def isJsWs (c : Char) : Bool :=
  c = ' ' ∨ c = '\t' ∨ c = '\n' ∨ c = '\r' ∨ c = '\x0b' ∨ c = '\x0c' ∨
  c = ' ' ∨ c = '﻿'

/-- `String.prototype.trim`: strip JS whitespace from both ends. -/
def jsTrim (s : Str) : Str :=
  ((s.dropWhile isJsWs).reverse.dropWhile isJsWs).reverse

/-- Decimal digits of a token, as a number (`parseInt(digits, 10)`). -/
def digitsToNat (l : Str) : Nat :=
  l.foldl (fun a c => a * 10 + (c.toNat - 48)) 0

/-- `String.prototype.split` on a single-character class: cut the string at
every delimiter character (adjacent delimiters produce empty fields). -/
def splitOnP (p : Char → Bool) : Str → List Str
  | [] => [[]]
  | c :: t =>
    let r := splitOnP p t
    if p c then [] :: r
    else
      match r with
      | h :: t' => (c :: h) :: t'
      | [] => [[c]]

/-- First index of character `c` (JS `indexOf` returns `-1`, here `none`). -/
def indexOfChar (s : Str) (c : Char) : Option Nat :=
  s.findIdx? (fun x => x = c)

/-- Helper for `lastIndexOf`: last position of `c` in the list, if any. -/
def lastIndexOfAux (c : Char) : Str → Option Nat
  | [] => none
  | a :: t =>
    match lastIndexOfAux c t with
    | some i => some (i + 1)
    | none => if a = c then some 0 else none

/-- JS `String.prototype.lastIndexOf` for a single character: the last
position of `c`, or `-1` when absent. -/
def lastIndexOf (s : Str) (c : Char) : Int :=
  match lastIndexOfAux c s with
  | some i => (i : Int)
  | none => -1

theorem lastIndexOfAux_head (c : Char) (t : Str) :
    ∃ i, lastIndexOfAux c (c :: t) = some i := by
  unfold lastIndexOfAux
  cases h : lastIndexOfAux c t with
  | some i => exact ⟨i + 1, rfl⟩
  | none => exact ⟨0, by simp⟩

/-- JS truthiness of a nullable string: `null`/`undefined` and `""` are
falsy, every other string is truthy. -/
def truthyStr : Option Str → Bool
  | none => false
  | some s => !s.isEmpty

/-- JS truthiness of a nullable boolean (`null`, `undefined`, `false` falsy). -/
def truthyB : Option Bool → Bool
  | none => false
  | some b => b

/-- S5.1.2 canonicalized host names (`canonicalDomain` on a non-null string):
trim, strip one leading `.`, lower-case.  The IDN (`punycode.toASCII`)
branch — taken only when the string has a code point outside
U+0001–U+007F — belongs to an out-of-scope external collaborator (spec §1)
and is modelled as the identity. -/
def canonicalDomainStr (s : Str) : Str :=
  let s := jsTrim s
  let s := match s with
    | '.' :: t => t
    | other => other
  s.map Char.toLower

/-- `canonicalDomain`: returns `null` on null input. -/
def canonicalDomain : Option Str → Option Str
  | none => none
  | some s => some (canonicalDomainStr s)

/-- Modelled from the spec: `net.isIP` (src/node-shim/net is not among the
sources).  §4.A: "true iff `s` is a valid IPv4 or IPv6 literal."  IPv4:
four decimal groups 0–255 without leading-zero padding beyond a single
digit; IPv6: 1–4-digit hexadecimal groups, eight of them `:`-separated, or
fewer with a single `::` abbreviation. -/
def isIPv4Group (g : Str) : Bool :=
  g ≠ [] ∧ g.length ≤ 3 ∧ g.all Char.isDigit ∧ digitsToNat g ≤ 255 ∧
  (g.head? = some '0' → g.length = 1)

def isIPv4 (s : Str) : Bool :=
  let gs := splitOnP (fun c => c = '.') s
  gs.length = 4 ∧ gs.all isIPv4Group

def isIPv6Group (g : Str) : Bool :=
  g ≠ [] ∧ g.length ≤ 4 ∧ g.all (fun c => c.isDigit ∨ ('a' ≤ c.toLower ∧ c.toLower ≤ 'f'))

/-- Count of occurrences of `::` in a list (non-overlapping scan). -/
def doubleColonCount : Str → Nat
  | ':' :: ':' :: t => 1 + doubleColonCount t
  | _ :: t => doubleColonCount t
  | [] => 0

def isIPv6 (s : Str) : Bool :=
  let gs := splitOnP (fun c => c = ':') s
  if doubleColonCount s = 0 then
    gs.length = 8 ∧ gs.all isIPv6Group
  else if doubleColonCount s = 1 then
    gs.length ≤ 8 ∧ gs.all (fun g => g = [] ∨ isIPv6Group g)
  else false

/-- Modelled from the spec: `isIP s` is true iff `s` is an IPv4 or IPv6
literal (§4.A, §6). -/
def isIP (s : Str) : Bool := isIPv4 s ∨ isIPv6 s

/-- Whether `pat` occurs in `s` at position `i` (the regex-free meaning of
"`s.indexOf(pat) = i`" for some occurrence). -/
def occursAt (pat s : Str) (i : Nat) : Prop := pat <+: s.drop i

instance (pat s : Str) (i : Nat) : Decidable (occursAt pat s i) := by
  unfold occursAt; infer_instance

/-- JS `String.prototype.indexOf` for a substring: position of the first
occurrence (`none` for JS `-1`).  The empty pattern occurs at 0. -/
def strIndexOf (s pat : Str) : Option Nat :=
  if pat.isPrefixOf s then some 0
  else
    match s with
    | [] => none
    | _ :: t => (strIndexOf t pat).map (· + 1)

theorem strIndexOf_eq_some_iff (s pat : Str) (i : Nat) :
    strIndexOf s pat = some i ↔
      (occursAt pat s i ∧ ∀ j, j < i → ¬ occursAt pat s j) := by
  induction s generalizing i with
  | nil =>
    unfold strIndexOf
    by_cases h : pat.isPrefixOf []
    · simp only [if_pos h]
      have hp : pat <+: ([] : Str) := List.isPrefixOf_iff_prefix.mp h
      constructor
      · rintro h0
        injection h0 with h0
        subst h0
        exact ⟨by simpa [occursAt] using hp, by omega⟩
      · rintro ⟨_, hmin⟩
        by_contra hne
        have hipos : 0 < i := by
          rcases Nat.eq_zero_or_pos i with h0 | h0
          · exact absurd (by rw [h0]) hne
          · exact h0
        exact hmin 0 hipos (by simpa [occursAt] using hp)
    · simp only [if_neg h]
      constructor
      · intro h0; exact absurd h0 (by simp)
      · rintro ⟨hocc, _⟩
        have : pat <+: ([] : Str) := by simpa [occursAt] using hocc
        exact absurd (List.isPrefixOf_iff_prefix.mpr this) h
  | cons a t ih =>
    unfold strIndexOf
    by_cases h : pat.isPrefixOf (a :: t)
    · simp only [if_pos h]
      have hp : pat <+: (a :: t) := List.isPrefixOf_iff_prefix.mp h
      constructor
      · rintro h0
        injection h0 with h0
        subst h0
        exact ⟨by simpa [occursAt] using hp, by omega⟩
      · rintro ⟨_, hmin⟩
        by_contra hne
        have hipos : 0 < i := by
          rcases Nat.eq_zero_or_pos i with h0 | h0
          · exact absurd (by rw [h0]) hne
          · exact h0
        exact hmin 0 hipos (by simpa [occursAt] using hp)
    · simp only [if_neg h]
      constructor
      · intro h0
        rcases Option.map_eq_some'.mp h0 with ⟨j, hj, hji⟩
        rcases (ih j).mp hj with ⟨hocc, hmin⟩
        subst hji
        refine ⟨by simpa [occursAt] using hocc, ?_⟩
        intro k hk
        cases k with
        | zero =>
          intro hocc0
          have : pat <+: (a :: t) := by simpa [occursAt] using hocc0
          exact h (List.isPrefixOf_iff_prefix.mpr this)
        | succ k' =>
          intro hocck
          exact hmin k' (by omega) (by simpa [occursAt] using hocck)
      · rintro ⟨hocc, hmin⟩
        cases i with
        | zero =>
          have : pat <+: (a :: t) := by simpa [occursAt] using hocc
          exact absurd (List.isPrefixOf_iff_prefix.mpr this) h
        | succ i' =>
          have hocc' : occursAt pat t i' := by simpa [occursAt] using hocc
          have hmin' : ∀ j, j < i' → ¬ occursAt pat t j := by
            intro j hj hoc
            exact hmin (j + 1) (by omega) (by simpa [occursAt] using hoc)
          rw [(ih i').mpr ⟨hocc', hmin'⟩]
          rfl

/-- S5.1.3 domain matching, the core on two non-null pre-canonicalized
strings.  Mirrors the source: identical strings match; an IP host never
suffix-matches; otherwise `str.indexOf(domStr)` must land at a positive
index `idx` with `str.length === domStr.length + idx` and a `.` at
`idx - 1`. -/
def domainMatchCore (s d : Str) : Bool :=
  if s = d then true
  else if isIP s then false
  else
    match strIndexOf s d with
    | none => false
    | some idx =>
      if idx = 0 then false
      else if s.length ≠ d.length + idx then false
      else if (s.drop (idx - 1)).head? ≠ some '.' then false
      else true

/-- `domainMatch(str, domStr, canonicalize)`: `null` when either argument is
null, otherwise the boolean core (after optional canonicalization). -/
def domainMatch (str domStr : Option Str) (canonicalize : Bool) : Option Bool :=
  match str, domStr with
  | some s, some d =>
    let s := if canonicalize then canonicalDomainStr s else s
    let d := if canonicalize then canonicalDomainStr d else d
    some (domainMatchCore s d)
  | _, _ => none

/-- RFC 6265 S5.1.4 default-path.  Takes the (possibly null) uri-path. -/
def defaultPath (path : Option Str) : Str :=
  match path with
  | none => ['/']
  | some p =>
    if p.head? ≠ some '/' then ['/']
    else if p = ['/'] then p
    else
      let rightSlash := lastIndexOf p '/'
      if rightSlash = 0 then ['/']
      else p.take rightSlash.toNat

theorem defaultPath_head (path : Option Str) :
    (defaultPath path).head? = some '/' := by
  unfold defaultPath
  cases path with
  | none => rfl
  | some p =>
    cases p with
    | nil => simp
    | cons a t =>
      by_cases h1 : a = '/'
      · subst h1
        simp only [List.head?_cons, ne_eq, not_true_eq_false, if_false]
        by_cases h2 : ('/' :: t : Str) = ['/']
        · simp [h2]
        · simp only [if_neg h2]
          obtain ⟨i, hi⟩ := lastIndexOfAux_head '/' t
          have hL : lastIndexOf ('/' :: t) '/' = (i : Int) := by
            unfold lastIndexOf; rw [hi]
          rw [hL]
          by_cases h3 : (i : Int) = 0
          · simp [h3]
          · simp only [if_neg h3]
            cases i with
            | zero => exact absurd rfl h3
            | succ n => simp
      · simp [h1]

/-- Modelled from the spec: RFC 6265 S5.1.4 path-match (src/pathMatch is not
among the sources).  §4.A: true iff the paths are identical, or the cookie
path is a prefix of the request path and either ends in `/` or the next
request-path character is `/`.  A null cookie path matches nothing. -/
def pathMatch (reqPath : Str) (cookiePath : Option Str) : Bool :=
  match cookiePath with
  | none => false
  | some cp =>
    if reqPath = cp then true
    else if cp.isPrefixOf reqPath ∧
        (cp.getLast? = some '/' ∨ (reqPath.drop cp.length).head? = some '/') then true
    else false

/-- Loop body of `permutePath`: repeatedly cut the path at its right-most
`/` (stopping at the root), collecting each shorter prefix.  The fuel is
the initial length, which bounds the number of strict shortenings;
`substr(0, -1)` on a slash-free path is the empty string, as in JS. -/
def permutePathLoop : Nat → Str → List Str
  | 0, _ => []
  | fuel + 1, path =>
    if path.length ≤ 1 then []
    else
      let lindex := lastIndexOf path '/'
      if lindex = 0 then []
      else
        let path' := path.take lindex.toNat
        path' :: permutePathLoop fuel path'

/-- `permutePath`: all path prefixes that path-match a given path, longest
to shortest (source lines 615–640). -/
def permutePath (path : Str) : List Str :=
  if path = ['/'] then [['/']]
  else
    let path := if lastIndexOf path '/' = (path.length : Int) - 1
      then path.take (path.length - 1) else path
    path :: (permutePathLoop path.length path ++ [['/']])

/-! ## DateCodec: civil/epoch conversions (the semantics of JS `Date.UTC`
and the `getUTC*` accessors, via the standard Gregorian-calendar
conversion on days since 1970-01-01) -/

/-- Days since the epoch of the civil date `y-m-d` (month 1–12; the day may
exceed the month length, rolling over exactly as `Date.UTC` does). -/
def daysFromCivil (y m d : Int) : Int :=
  let y := if m ≤ 2 then y - 1 else y
  let era := Int.fdiv y 400
  let yoe := y - era * 400
  let mp := if 2 < m then m - 3 else m + 9
  let doy := Int.fdiv (153 * mp + 2) 5 + d - 1
  let doe := yoe * 365 + Int.fdiv yoe 4 - Int.fdiv yoe 100 + doy
  era * 146097 + doe - 719468

/-- Civil date `(year, month 1–12, day)` of a count of days since the
epoch (inverse of `daysFromCivil`). -/
def civilFromDays (z0 : Int) : Int × Int × Int :=
  let z := z0 + 719468
  let era := Int.fdiv z 146097
  let doe := z - era * 146097
  let yoe := Int.fdiv (doe - Int.fdiv doe 1460 + Int.fdiv doe 36524 - Int.fdiv doe 146096) 365
  let y := yoe + era * 400
  let doy := doe - (365 * yoe + Int.fdiv yoe 4 - Int.fdiv yoe 100)
  let mp := Int.fdiv (5 * doy + 2) 153
  let d := doy - Int.fdiv (153 * mp + 2) 5 + 1
  let m := if mp < 10 then mp + 3 else mp - 9
  (if m ≤ 2 then y + 1 else y, m, d)

/-- `Date.UTC(year, month, day, hour, min, sec)` in epoch milliseconds
(month 0-based, as in JS). -/
def dateUTCms (y mo0 d h mi s : Int) : Int :=
  daysFromCivil y (mo0 + 1) d * 86400000 + h * 3600000 + mi * 60000 + s * 1000

def NUM_TO_MONTH : List Str :=
  ["Jan".toList, "Feb".toList, "Mar".toList, "Apr".toList, "May".toList,
   "Jun".toList, "Jul".toList, "Aug".toList, "Sep".toList, "Oct".toList,
   "Nov".toList, "Dec".toList]

def NUM_TO_DAY : List Str :=
  ["Sun".toList, "Mon".toList, "Tue".toList, "Wed".toList, "Thu".toList,
   "Fri".toList, "Sat".toList]

/-- Decimal digits of a non-negative integer (sign prepended otherwise). -/
def intToChars (n : Int) : Str :=
  if n < 0 then '-' :: Nat.toDigits 10 (-n).toNat
  else Nat.toDigits 10 n.toNat

/-- The source's two-digit zero-padding: `x >= 10 ? x : '0' + x`. -/
def pad2 (n : Int) : Str :=
  if 10 ≤ n then intToChars n else '0' :: intToChars n

/-- `formatDate(date)` (source lines 229–242) on an epoch-millisecond
instant.  The source's template literal spans a physical line break, so the
emitted string contains a newline and four spaces of indentation between
the year and the time — reproduced verbatim here. -/
def formatDate (ms : Int) : Str :=
  let days := Int.fdiv ms 86400000
  let msOfDay := Int.emod ms 86400000
  let civil := civilFromDays days
  let uDate := pad2 civil.2.2
  let hours := pad2 (Int.fdiv msOfDay 3600000)
  let minutes := pad2 (Int.emod (Int.fdiv msOfDay 60000) 60)
  let seconds := pad2 (Int.emod (Int.fdiv msOfDay 1000) 60)
  let wd := (Int.emod (days + 4) 7).toNat
  (NUM_TO_DAY.getD wd []) ++ ", ".toList ++ uDate ++ [' '] ++
    (NUM_TO_MONTH.getD (civil.2.1 - 1).toNat []) ++ [' '] ++ intToChars civil.1 ++
    "\n    ".toList ++ hours ++ [':'] ++ minutes ++ [':'] ++ seconds ++ " GMT".toList

/-! ## DateCodec: the RFC 6265 S5.1.1 date parser (source lines 102–227) -/

/-- The date-token delimiter class `DATE_DELIM`
(`[\x09\x20-\x2F\x3B-\x40\x5B-\x60\x7B-\x7E]`). -/
def isDateDelim (c : Char) : Bool :=
  c = '\t' ∨ (0x20 ≤ c.toNat ∧ c.toNat ≤ 0x2F) ∨ (0x3B ≤ c.toNat ∧ c.toNat ≤ 0x40) ∨
  (0x5B ≤ c.toNat ∧ c.toNat ≤ 0x60) ∨ (0x7B ≤ c.toNat ∧ c.toNat ≤ 0x7E)

/-- Consume the `[^\d]*:` part of the `TIME` production: the maximal
non-digit run must be non-empty and end exactly at a `:` (anything after
that `:` would otherwise have to be matched by the next digit group). -/
def chompTimeSep (l : Str) : Option Str :=
  let nd := l.takeWhile (fun c => !c.isDigit)
  if nd ≠ [] ∧ nd.getLast? = some ':' then some (l.drop nd.length) else none

/-- `TIME.exec`: `^(\d{1,2})[^\d]*:(\d{1,2})[^\d]*:(\d{1,2})[^\d]*$`. -/
def execTime (tok : Str) : Option (Nat × Nat × Nat) :=
  let d1 := tok.takeWhile Char.isDigit
  if d1 = [] ∨ 2 < d1.length then none
  else
    match chompTimeSep (tok.drop d1.length) with
    | none => none
    | some r1 =>
      let d2 := r1.takeWhile Char.isDigit
      if d2 = [] ∨ 2 < d2.length then none
      else
        match chompTimeSep (r1.drop d2.length) with
        | none => none
        | some r2 =>
          let d3 := r2.takeWhile Char.isDigit
          if d3 = [] ∨ 2 < d3.length then none
          else if (r2.drop d3.length).all (fun c => !c.isDigit) then
            some (digitsToNat d1, digitsToNat d2, digitsToNat d3)
          else none

/-- `DAY_OF_MONTH.exec`: `^(\d{1,2})[^\d]*$`.  (The source's
`parseInt(result, 10)` stringifies the match array as `"full,group"`;
`parseInt` reads its leading digits, which are exactly the day digits.) -/
def execDayOfMonth (tok : Str) : Option Nat :=
  let ds := tok.takeWhile Char.isDigit
  if ds = [] ∨ 2 < ds.length then none
  else if (tok.drop ds.length).all (fun c => !c.isDigit) then some (digitsToNat ds)
  else none

/-- `MONTH_TO_NUM` lookup on a lower-cased three-letter name. -/
def monthToNum (s : Str) : Option Nat :=
  if s = "jan".toList then some 0
  else if s = "feb".toList then some 1
  else if s = "mar".toList then some 2
  else if s = "apr".toList then some 3
  else if s = "may".toList then some 4
  else if s = "jun".toList then some 5
  else if s = "jul".toList then some 6
  else if s = "aug".toList then some 7
  else if s = "sep".toList then some 8
  else if s = "oct".toList then some 9
  else if s = "nov".toList then some 10
  else if s = "dec".toList then some 11
  else none

/-- `MONTH.exec`: case-insensitive three-letter month name at the start of
the token. -/
def execMonth (tok : Str) : Option Nat :=
  if tok.length < 3 then none else monthToNum ((tok.take 3).map Char.toLower)

/-- `YEAR.exec`: `^(\d{2}|\d{4})$` — exactly two or exactly four digits. -/
def execYear (tok : Str) : Option Nat :=
  if (tok.length = 2 ∨ tok.length = 4) ∧ tok.all Char.isDigit then
    some (digitsToNat tok)
  else none

/-- S5.1.1 steps 3–4: a year value 70–99 gains 1900, a value 0–69 gains
2000 (the source applies this to the numeric value of any year token). -/
def adjustYear (y : Nat) : Nat :=
  if 70 ≤ y ∧ y ≤ 99 then y + 1900
  else if y ≤ 69 then y + 2000
  else y

/-- The parser's six mutable locals (`null` = flag not set). -/
structure DateState where
  hour : Option Nat := none
  minutes : Option Nat := none
  seconds : Option Nat := none
  day : Option Nat := none
  month : Option Nat := none
  year : Option Nat := none
deriving Repr, DecidableEq

/-- One iteration of the token loop (source lines 124–218): try the time,
day-of-month, month and year productions in order, each only when its flag
is not yet set; range failures abort the whole parse (`none`). -/
def processToken (st : DateState) (rawTok : Str) : Option DateState :=
  let token := jsTrim rawTok
  if token = [] then some st
  else
    match (if st.seconds = none then execTime token else none) with
    | some (h, mi, s) =>
      if 23 < h ∨ 59 < mi ∨ 59 < s then none
      else some { st with hour := some h, minutes := some mi, seconds := some s }
    | none =>
      match (if st.day = none then execDayOfMonth token else none) with
      | some d =>
        if d < 1 ∨ 31 < d then none
        else some { st with day := some d }
      | none =>
        match (if st.month = none then execMonth token else none) with
        | some m => some { st with month := some m }
        | none =>
          match (if st.year = none then execYear token else none) with
          | some yRaw =>
            let y := adjustYear yRaw
            if y < 1601 then none else some { st with year := some y }
          | none => some st

/-- The token loop over the `DATE_DELIM` split of the input. -/
def parseDateTokens (s : Str) : Option DateState :=
  (splitOnP isDateDelim s).foldlM processToken {}

/-- `parseDate` (source lines 102–227): `none` both for JS `undefined`
returns and for inputs on which S5.1.1 fails; otherwise the
`Date.UTC(year, month, day, hour, minutes, seconds)` instant.  (`hour` and
`minutes` are set exactly when `seconds` is; JS would coerce a `null` to
0, hence `getD 0`.) -/
def parseDate (s : Str) : Option Int :=
  if s = [] then none
  else
    match parseDateTokens s with
    | none => none
    | some st =>
      if st.seconds = none ∨ st.day = none ∨ st.month = none ∨ st.year = none then none
      else some (dateUTCms ((st.year.getD 0 : Nat) : Int) ((st.month.getD 0 : Nat) : Int)
        ((st.day.getD 0 : Nat) : Int) ((st.hour.getD 0 : Nat) : Int)
        ((st.minutes.getD 0 : Nat) : Int) ((st.seconds.getD 0 : Nat) : Int))

/-! ## The Cookie record -/

/-- The `expires` slot: the prototype-default string `'Infinity'` (the
"session" sentinel), a `Date`, or some other string (assignable through
the constructor or `fromJSON`). -/
inductive Expires where
  | forever
  | date (ms : Int)
  | str (s : Str)
deriving Repr, DecidableEq

/-- The `maxAge` slot: `null`, a finite number, or the strings
`'Infinity'` / `'-Infinity'` produced by `setMaxAge(±Infinity)`. -/
inductive MaxAge where
  | unset
  | fin (n : Int)
  | posInf
  | negInf
deriving Repr, DecidableEq

/-- The loose JS comparison `maxAge != null`. -/
def MaxAge.isSet : MaxAge → Bool
  | .unset => false
  | _ => true

/-- The loose JS comparison `maxAge <= 0` (the sentinel strings coerce to
`±Infinity`). -/
def MaxAge.le0 : MaxAge → Bool
  | .unset => true
  | .fin n => n ≤ 0
  | .posInf => false
  | .negInf => true

/-- The Cookie record (prototype defaults as field defaults; `creation`
and `creationIndex` are filled in by the constructor). -/
structure Cookie where
  key : Str := []
  value : Str := []
  expires : Expires := .forever
  maxAge : MaxAge := .unset
  domain : Option Str := none
  path : Option Str := none
  secure : Bool := false
  httpOnly : Bool := false
  extensions : List Str := []
  hostOnly : Option Bool := none
  pathIsDefault : Option Bool := none
  creation : Option Int := none
  lastAccessed : Option Int := none
  creationIndex : Nat := 0
deriving Repr, DecidableEq

/-- `cdomain()` / `canonicalizedDomain()` (source lines 957–964). -/
def Cookie.cdomain (c : Cookie) : Option Str := canonicalDomain c.domain

/-- Modelled from the spec: the public-suffix oracle
`publicsuffix.registrable_parent(domain) → domain | null`, which "returns
`null` iff `domain` is itself a public suffix" (§6).  The engine only ever
tests the result for null-ness, so the oracle is a predicate `ps` picking
out the public suffixes; a null or empty argument also yields `null`. -/
def getPublicSuffix (ps : Str → Bool) : Option Str → Option Str
  | none => none
  | some d => if d = [] then none else if ps d then none else some d

/-- `COOKIE_OCTET` (RFC 6265 S4.1.1; excludes `"` `,` `;` `\` and `;`). -/
def isCookieOctet (c : Char) : Bool :=
  c.toNat = 0x21 ∨ (0x23 ≤ c.toNat ∧ c.toNat ≤ 0x2B) ∨
  (0x2D ≤ c.toNat ∧ c.toNat ≤ 0x3A) ∨ (0x3C ≤ c.toNat ∧ c.toNat ≤ 0x5B) ∨
  (0x5D ≤ c.toNat ∧ c.toNat ≤ 0x7E)

/-- `COOKIE_OCTETS.test(v)`: `^[cookie-octet]+$` — a non-empty run. -/
def cookieOctetsTest (v : Str) : Bool := !v.isEmpty ∧ v.all isCookieOctet

/-- `CONTROL_CHARS.test`: contains a character in `\x00`–`\x1F`. -/
def containsControl (s : Str) : Bool := s.any (fun c => c.toNat ≤ 0x1F)

/-- The `PATH_VALUE` character class `[\x20-\x3A\x3C-\x7E]`. -/
def isPathValueChar (c : Char) : Bool :=
  (0x20 ≤ c.toNat ∧ c.toNat ≤ 0x3A) ∨ (0x3C ≤ c.toNat ∧ c.toNat ≤ 0x7E)

/-- `PATH_VALUE.test(p)`: the regex is unanchored, so this is "contains at
least one such character". -/
def pathValueTest (p : Str) : Bool := p.any isPathValueChar

/-- The loose comparison `this.expires != Infinity`: false exactly for the
`'Infinity'` sentinel (a non-`'Infinity'` string would compare via
`ToNumber`, and a `Date` never equals `Infinity`). -/
def Expires.looseNeInfinity : Expires → Bool
  | .forever => false
  | .date _ => true
  | .str s => s ≠ "Infinity".toList

/-- `validate()` (source lines 780–814), parameterized by the
public-suffix oracle. -/
def Cookie.validate (ps : Str → Bool) (c : Cookie) : Bool :=
  if !cookieOctetsTest c.value then false
  else if c.expires.looseNeInfinity &&
      (match c.expires with
       | .date _ => false
       | .str s => (parseDate s).isNone
       | .forever => false) then false
  else if c.maxAge.isSet && c.maxAge.le0 then false
  else if (match c.path with
           | some p => !pathValueTest p
           | none => false) then false
  else
    match c.cdomain with
    | some cd =>
      if cd ≠ [] then
        if cd.getLast? = some '.' then false
        else if getPublicSuffix ps (some cd) = none then false
        else true
      else true
    | none => true

/-- `setMaxAge(age)` (source lines 824–831): `±Infinity` is kept as its
string form so `JSON.stringify` works — both renderings are the
corresponding `MaxAge` sentinel here. -/
def Cookie.setMaxAge (c : Cookie) (age : MaxAge) : Cookie := { c with maxAge := age }

/-- Extended time line for `expiryTime`'s `±Infinity` results. -/
inductive ExtTime where
  | negInf
  | fin (n : Int)
  | posInf
deriving Repr, DecidableEq

/-- `x <= now` for an extended time against a finite instant. -/
def ExtTime.leInt : ExtTime → Int → Bool
  | .negInf, _ => true
  | .fin m, n => m ≤ n
  | .posInf, _ => false

def ExtTime.addFin : Int → ExtTime → ExtTime
  | _, .negInf => .negInf
  | n, .fin m => .fin (n + m)
  | _, .posInf => .posInf

/-- `expiryTime(now)` (source lines 922–935).  `currentMs` is the clock
behind the `new Date()` fallback.  `none` models the `TypeError` thrown
when `expires` holds a non-`'Infinity'` string (no `getTime` method). -/
def Cookie.expiryTime (c : Cookie) (currentMs : Int) (now : Option Int) : Option ExtTime :=
  if c.maxAge.isSet then
    let relativeTo := (now.or c.creation).getD currentMs
    let age : ExtTime := if c.maxAge.le0 then .negInf
      else match c.maxAge with
        | .fin n => .fin (n * 1000)
        | _ => .posInf
    some (ExtTime.addFin relativeTo age)
  else
    match c.expires with
    | .forever => some .posInf
    | .str s => if s = "Infinity".toList then some .posInf else none
    | .date ms => some (.fin ms)

/-- `cookieCompare` (source lines 584–611): longer path first, then earlier
creation (missing `creation` counts as `MAX_TIME`), then `creationIndex`. -/
def cookieCompare (a b : Cookie) : Int :=
  let aPathLen : Int := match a.path with | some p => p.length | none => 0
  let bPathLen : Int := match b.path with | some p => p.length | none => 0
  if bPathLen - aPathLen ≠ 0 then bPathLen - aPathLen
  else
    let aTime := a.creation.getD 2147483647000
    let bTime := b.creation.getD 2147483647000
    if aTime - bTime ≠ 0 then aTime - bTime
    else (a.creationIndex : Int) - (b.creationIndex : Int)

/-! ## The Set-Cookie parser (source lines 343–512) -/

/-- The value terminators of the pair regexes (`[^\n\r\0]*`). -/
def isPairTerm (c : Char) : Bool := c = '\n' ∨ c = '\r' ∨ c = '\x00'

/-- The `\s*` after the `=` followed by the `[^\n\r\0]*` value group. -/
def pairValueOf (rest : Str) : Str :=
  (rest.dropWhile isJsWs).takeWhile (fun c => !isPairTerm c)

/-- `COOKIE_PAIR` / `LOOSE_COOKIE_PAIR` applied to the head of the string
(up to the first `;`): the raw key and value groups, or `none` on no
match.  Strict: `^(([^=;]+))\s*=\s*([^\n\r\0]*)` — at least one character
before the first `=`.  Loose: `^((?:=)?([^=;]*)\s*=\s*)?([^\n\r\0]*)` —
additionally accepts a leading `=` (empty name) and a missing `=` (the
whole head is the value). -/
def cookiePairExec (loose : Bool) (head : Str) : Option (Str × Str) :=
  if loose then
    match head with
    | '=' :: h' =>
      match indexOfChar h' '=' with
      | some j => some (h'.take j, pairValueOf (h'.drop (j + 1)))
      | none => some ([], h'.dropWhile isJsWs |>.takeWhile (fun c => !isPairTerm c))
    | _ =>
      match indexOfChar head '=' with
      | some j => some (head.take j, pairValueOf (head.drop (j + 1)))
      | none => some ([], head.takeWhile (fun c => !isPairTerm c))
  else
    match indexOfChar head '=' with
    | none => none
    | some 0 => none
    | some j => some (head.take j, pairValueOf (head.drop (j + 1)))

/-- `^-?[0-9]+$` (the `max-age` well-formedness test). -/
def maxAgeDigitsTest (v : Str) : Bool :=
  match v with
  | '-' :: t => t ≠ [] ∧ t.all Char.isDigit
  | t => t ≠ [] ∧ t.all Char.isDigit

/-- `parseInt(v, 10)` on a string already matching `^-?[0-9]+$`. -/
def jsParseIntSigned (v : Str) : Int :=
  match v with
  | '-' :: t => -(digitsToNat t : Int)
  | t => (digitsToNat t : Int)

/-- `.replace(/^\./, '')`: strip a single leading dot. -/
def dropLeadingDot : Str → Str
  | '.' :: t => t
  | other => other

/-- One iteration of the attribute loop (source lines 399–509). -/
def processAv (c : Cookie) (avRaw : Str) : Cookie :=
  let av := jsTrim avRaw
  if av = [] then c
  else
    let avPair : Str × Option Str :=
      match indexOfChar av '=' with
      | none => (av, none)
      | some j => (av.take j, some (av.drop (j + 1)))
    let avKey := (jsTrim avPair.1).map Char.toLower
    let avValue := avPair.2.map jsTrim
    if avKey = "expires".toList then
      if truthyStr avValue then
        match parseDate (avValue.getD []) with
        | some exp => { c with expires := .date exp }
        | none => c
      else c
    else if avKey = "max-age".toList then
      if truthyStr avValue ∧ maxAgeDigitsTest (avValue.getD []) then
        c.setMaxAge (.fin (jsParseIntSigned (avValue.getD [])))
      else c
    else if avKey = "domain".toList then
      if truthyStr avValue then
        let domain := dropLeadingDot (jsTrim (avValue.getD []))
        if domain ≠ [] then { c with domain := some (domain.map Char.toLower) } else c
      else c
    else if avKey = "path".toList then
      { c with path := if truthyStr avValue ∧ (avValue.getD []).head? = some '/'
          then avValue else none }
    else if avKey = "secure".toList then { c with secure := true }
    else if avKey = "httponly".toList then { c with httpOnly := true }
    else { c with extensions := c.extensions ++ [av] }

/-- `Cookie.parse(str, {loose})` (source lines 343–512).  `ctime` is the
construction clock (`new Cookie()` defaults `creation` to `new Date()`)
and `idx` the minted `creationIndex` (`++Cookie.cookiesCreated`). -/
def parse (loose : Bool) (str : Str) (ctime : Int) (idx : Nat) : Option Cookie :=
  let str := jsTrim str
  let firstSemi := indexOfChar str ';'
  let head := match firstSemi with | some i => str.take i | none => str
  match cookiePairExec loose head with
  | none => none
  | some kv =>
    let key := jsTrim kv.1
    let value := jsTrim kv.2
    if containsControl key ∨ containsControl value then none
    else
      let c0 : Cookie := { key := key, value := value,
                           creation := some ctime, creationIndex := idx }
      match firstSemi with
      | none => some c0
      | some i =>
        let unparsed := jsTrim (str.drop (i + 1))
        if unparsed = [] then some c0
        else some ((splitOnP (fun c => c = ';') unparsed).foldl processAv c0)

/-! ## The store (spec §4.E; src/memstore is not among the sources) -/

/-- Modelled from the spec: the in-memory store is "a three-level index
`domain → path → key → Cookie`"; here a flat list with at most one cookie
per identity triple, keyed by the cookies' own fields. -/
abbrev Store := List Cookie

/-- Identity-triple comparison (`(domain, path, key)`, spec §3). -/
def idMatches (c : Cookie) (d p : Option Str) (k : Str) : Bool :=
  c.domain = d ∧ c.path = p ∧ c.key = k

/-- Modelled from the spec: `find(domain, path, key)` — "the matching
cookie or absent". -/
def findCookie (st : Store) (d p : Option Str) (k : Str) : Option Cookie :=
  st.find? (fun c => idMatches c d p k)

/-- Modelled from the spec: `put(cookie)` — store at the cookie's identity
triple (the jar overwrites through this in `updateCookie`'s default
shim, so any previous record at the triple is replaced). -/
def putCookie (st : Store) (c : Cookie) : Store :=
  st.filter (fun x => !idMatches x c.domain c.path c.key) ++ [c]

/-- Modelled from the spec: `remove(domain, path, key)` — "delete if
present". -/
def removeCookie (st : Store) (d p : Option Str) (k : Str) : Store :=
  st.filter (fun x => !idMatches x d p k)

/-- Chain of parent domains obtained by repeatedly dropping the leading
label (`fuel` bounds the recursion by the string length). -/
def domainChainGo : Nat → Str → List Str
  | 0, _ => []
  | fuel + 1, d =>
    match indexOfChar d '.' with
    | none => []
    | some i =>
      let d' := d.drop (i + 1)
      d' :: domainChainGo fuel d'

/-- Modelled from the spec: `permute_domain(d, public_suffix)` — "list of
`d` and every parent domain up to (but not including) the public suffix"
(§4.A), with the suffix decided by the oracle `ps`. -/
def permuteDomain (ps : Str → Bool) (d : Str) : List Str :=
  (d :: domainChainGo d.length d).takeWhile (fun x => !ps x)

/-- Modelled from the spec: `find_cookies(host, path_or_null)` — the
candidate set "must include cookies for every domain in
`permute_domain(host, public_suffix)` and, if `path_or_null` is a path, at
least every cookie whose stored path is in `permute_path(request_path)`"
(§4.E); this model returns exactly those. -/
def findCookiesInStore (ps : Str → Bool) (st : Store) (host : Option Str)
    (path : Option Str) : List Cookie :=
  match host with
  | none => []
  | some h =>
    st.filter (fun c =>
      (match c.domain with
       | some d => (permuteDomain ps h).contains d
       | none => false) &&
      (match path with
       | none => true
       | some p =>
         match c.path with
         | some cp => (permutePath p).contains cp
         | none => false))

/-! ## The jar (source lines 966–1225) -/

structure CookieJar where
  store : Store := []
  rejectPublicSuffixes : Bool := true
  enableLooseMode : Bool := false
deriving Repr

/-- The url context consumed by the jar (`url.parse` output or a
caller-supplied object of the same shape, spec §6). -/
structure Context where
  hostname : Option Str := none
  pathname : Option Str := none
  protocol : Option Str := none
deriving Repr

structure SetCookieOptions where
  loose : Option Bool := none
  ignoreError : Bool := false
  now : Option Int := none
  http : Option Bool := none
deriving Repr

/-- The distinct policy failures of `setCookie` (spec §7). -/
inductive SetCookieError where
  | parseFailure
  | publicSuffix
  | domainMismatch
  | httpOnlyNew
  | httpOnlyOld
deriving Repr, DecidableEq

/-- What the completion receives: an error, a null error with no cookie
(`ignoreError`), or the accepted cookie. -/
inductive SetCookieOutcome where
  | err (e : SetCookieError)
  | ignoredErr
  | ok (c : Cookie)
deriving Repr, DecidableEq

/-- `cb(options.ignoreError ? null : err)`. -/
def failWith (opts : SetCookieOptions) (e : SetCookieError) : SetCookieOutcome :=
  if opts.ignoreError then .ignoredErr else .err e

/-- S5.3 step 1: a string input goes through the parser, a `Cookie`
instance is used as-is. -/
def parsedInput (loose : Bool) (input : Sum Str Cookie) (ctime : Int) (idx : Nat) :
    Option Cookie :=
  match input with
  | .inr c => some c
  | .inl s => parse loose s ctime idx

/-- `!cookie.path || cookie.path[0] !== '/'` (S5.2.4 trigger). -/
def pathNeedsDefault : Option Str → Bool
  | none => true
  | some p => p.head? ≠ some '/'

/-- The source's `withCookie` continuation (lines 1085–1123), invoked with
the result of `store.findCookie` on the accepted cookie's identity triple:
an existing cookie is replaced (S5.3 step 11, preserving `creation` and
`creationIndex` and refusing to replace an `httpOnly` cookie from a
non-HTTP caller), a fresh one is put with `creation = lastAccessed = now`
(the store's `updateCookie` default shim delegates to `putCookie`). -/
def withCookie (opts : SetCookieOptions) (store : Store) (now : Int) (cookie : Cookie) :
    Option Cookie → SetCookieOutcome × Store
  | some oldCookie =>
    if opts.http = some false ∧ oldCookie.httpOnly then
      (failWith opts .httpOnlyOld, store)
    else
      let c2 := { cookie with
        creation := oldCookie.creation
        creationIndex := oldCookie.creationIndex
        lastAccessed := some now }
      (.ok c2, putCookie store c2)
  | none =>
    let c2 := { cookie with creation := some now, lastAccessed := some now }
    (.ok c2, putCookie store c2)

/-- `CookieJar.prototype.setCookie` (source lines 995–1126) as a pure
function: the outcome delivered to the completion together with the
resulting store.  `defaultNow` is the wall clock (`new Date()`),
`mintIdx` the `creationIndex` a parsed cookie would be minted with. -/
def CookieJar.setCookie (ps : Str → Bool) (jar : CookieJar) (input : Sum Str Cookie)
    (ctx : Context) (opts : SetCookieOptions) (defaultNow : Int) (mintIdx : Nat) :
    SetCookieOutcome × Store :=
  let host := canonicalDomain ctx.hostname
  let loose := opts.loose.getD jar.enableLooseMode
  match parsedInput loose input defaultNow mintIdx with
  | none => (failWith opts .parseFailure, jar.store)
  | some cookie =>
    let now := opts.now.getD defaultNow
    if jar.rejectPublicSuffixes ∧ truthyStr cookie.domain ∧
        getPublicSuffix ps cookie.cdomain = none then
      (failWith opts .publicSuffix, jar.store)
    else
      match (if truthyStr cookie.domain then
               (if !truthyB (domainMatch host cookie.cdomain false) then none
                else some (if cookie.hostOnly = none
                  then { cookie with hostOnly := some false } else cookie))
             else some { cookie with hostOnly := some true, domain := host }) with
      | none => (failWith opts .domainMismatch, jar.store)
      | some cookie =>
        let cookie := if pathNeedsDefault cookie.path then
            { cookie with path := some (defaultPath ctx.pathname),
                          pathIsDefault := some true }
          else cookie
        if opts.http = some false ∧ cookie.httpOnly then
          (failWith opts .httpOnlyNew, jar.store)
        else
          withCookie opts jar.store now cookie
            (findCookie jar.store cookie.domain cookie.path cookie.key)

structure GetCookiesOptions where
  secure : Option Bool := none
  http : Option Bool := none
  now : Option Int := none
  expire : Option Bool := none
  allPaths : Bool := false
  sort : Option Bool := none
deriving Repr

/-- The jar's candidate filter (source lines 1159–1202).  Returns
`(keep, removalRequested)`; `none` models the `TypeError` the expiry step
would throw on a cookie whose `expires` is a non-`'Infinity'` string. -/
def matchingCookie (host : Option Str) (path : Str) (secure http expireCheck allPaths : Bool)
    (now currentMs : Int) (c : Cookie) : Option (Bool × Bool) :=
  if (if truthyB c.hostOnly then c.domain ≠ host
      else !truthyB (domainMatch host c.domain false)) then some (false, false)
  else if !allPaths ∧ !pathMatch path c.path then some (false, false)
  else if c.secure ∧ !secure then some (false, false)
  else if c.httpOnly ∧ !http then some (false, false)
  else if expireCheck then
    match c.expiryTime currentMs none with
    | none => none
    | some et => if et.leInt now then some (false, true) else some (true, false)
  else some (true, false)

/-- `cookies.filter(matchingCookie)` with the store removals it requests,
in candidate order. -/
def runFilter (host : Option Str) (path : Str) (secure http expireCheck allPaths : Bool)
    (now currentMs : Int) : List Cookie → Option (List Cookie × List (Option Str × Option Str × Str))
  | [] => some ([], [])
  | c :: t =>
    match matchingCookie host path secure http expireCheck allPaths now currentMs c with
    | none => none
    | some kr =>
      match runFilter host path secure http expireCheck allPaths now currentMs t with
      | none => none
      | some rest =>
        some ((if kr.1 then c :: rest.1 else rest.1),
              (if kr.2 then (c.domain, c.path, c.key) :: rest.2 else rest.2))

/-- The request parameters `getCookies` derives from the url context and
the options (source lines 1138–1157): canonical host, request path
(`pathname || '/'`), the `secure` default from the scheme, `http`
defaulting to true, the clock, the expiry-check switch
(`options.expire !== false`) and `allPaths`. -/
structure GetCtx where
  host : Option Str
  path : Str
  secure : Bool
  http : Bool
  now : Int
  expireCheck : Bool
  allPaths : Bool

def deriveGetCtx (ctx : Context) (opts : GetCookiesOptions) (currentMs : Int) : GetCtx :=
  { host := canonicalDomain ctx.hostname
    path := if truthyStr ctx.pathname then ctx.pathname.getD [] else ['/']
    secure := match opts.secure with
      | some b => b
      | none => ctx.protocol = some "https:".toList ∨ ctx.protocol = some "wss:".toList
    http := opts.http.getD true
    now := opts.now.getD currentMs
    expireCheck := opts.expire ≠ some false
    allPaths := opts.allPaths }

/-- `CookieJar.prototype.getCookies` (source lines 1130–1225) as a pure
function: the list delivered to the completion (filtered, optionally
sorted by `cookieCompare`, each `lastAccessed` touched) together with the
store after the expiry removals.  `none` models a thrown `TypeError` (see
`matchingCookie`). -/
def CookieJar.getCookies (ps : Str → Bool) (jar : CookieJar) (ctx : Context)
    (opts : GetCookiesOptions) (currentMs : Int) : Option (List Cookie × Store) :=
  let g := deriveGetCtx ctx opts currentMs
  let candidates := findCookiesInStore ps jar.store g.host
    (if g.allPaths then none else some g.path)
  match runFilter g.host g.path g.secure g.http g.expireCheck g.allPaths g.now
      currentMs candidates with
  | none => none
  | some kept =>
    let sorted := if opts.sort ≠ some false
      then kept.1.mergeSort (fun a b => cookieCompare a b ≤ 0) else kept.1
    let touched := sorted.map (fun c => { c with lastAccessed := some currentMs })
    some (touched, kept.2.foldl (fun s r => removeCookie s r.1 r.2.1 r.2.2) jar.store)

/-! ## Shared concrete instances for witnesses -/

/-- A concrete public-suffix oracle for concrete runs. -/
def wPs : Str → Bool := fun d => d = "com".toList ∨ d = "co.uk".toList

/-- A concrete request context, `http://example.com/`. -/
def wCtx : Context :=
  { hostname := some "example.com".toList, pathname := some "/".toList,
    protocol := some "http:".toList }

/-! ## C5: formatDate / parseDate round-trip -/

/-- C5: the formatter does not emit RFC 1123.  `parseDate` accepts the RFC
1123 epoch string and yields instant 0, but `formatDate 0` contains a
literal newline and four spaces of indentation between the year and the
time — the source's template literal (lines 240–241) spans a physical
line break — so `formatDate (parseDate s)` is not a valid RFC 1123 date
even though the field values still denote the same instant. -/
theorem formatDate_of_parseDate_has_newline :
    parseDate "Thu, 01 Jan 1970 00:00:00 GMT".toList = some 0 ∧
    formatDate 0 = "Thu, 01 Jan 1970\n    00:00:00 GMT".toList ∧
    '\n' ∈ formatDate 0 ∧
    formatDate 0 ≠ "Thu, 01 Jan 1970 00:00:00 GMT".toList := by
  refine ⟨by decide, by decide, by decide, by decide⟩

/-! ## C6: domainMatch on pre-canonicalized strings -/

/-- C6 counterexample: the claim's characterization fails twice.  For
`host = "b.c.b.c"`, `dom = "b.c"` the domain string is a proper suffix of
the host with a `.` immediately before it and the host is no IP literal,
so the claim says `true` — but the source resolves `indexOf` to the
occurrence at position 0 and reports a non-suffix, yielding `false`.  And
for `host = dom = ""` the source's identity test fires, contradicting
"never true when dom is the empty string". -/
theorem domainMatch_claim_counterexample :
    domainMatch (some "b.c.b.c".toList) (some "b.c".toList) false = some false ∧
    ("b.c".toList <:+ "b.c.b.c".toList ∧ "b.c".toList ≠ "b.c.b.c".toList) ∧
    ("b.c.b.c".toList.drop 3).head? = some '.' ∧
    isIP "b.c.b.c".toList = false ∧
    domainMatch (some ([] : Str)) (some ([] : Str)) false = some true := by
  refine ⟨by decide, ⟨⟨"b.c.".toList, by decide⟩, by decide⟩, by decide, by decide, by decide⟩

/-- C6 (amended): for pre-canonicalized strings, `domainMatch host dom`
(without re-canonicalization) is true iff `host = dom`, or `host` is not
an IP literal and the *first* occurrence of `dom` in `host` is at a
positive index `i` that makes it the suffix (`host.length = dom.length +
i`) with a `.` immediately before it; consequently an empty `dom` matches
only an empty `host`. -/
theorem domainMatch_characterization (s d : Str) :
    (domainMatch (some s) (some d) false = some true ↔
      s = d ∨ (isIP s = false ∧ ∃ i, 0 < i ∧ s.length = d.length + i ∧
        occursAt d s i ∧ (∀ j, j < i → ¬ occursAt d s j) ∧
        (s.drop (i - 1)).head? = some '.')) ∧
    (d = [] → s ≠ [] → domainMatch (some s) (some d) false = some false) := by
  constructor
  · show some (domainMatchCore s d) = some true ↔ _
    rw [Option.some_inj]
    unfold domainMatchCore
    by_cases hsd : s = d
    · simp [hsd]
    · simp only [if_neg hsd]
      by_cases hip : isIP s
      · simp only [if_pos hip]
        constructor
        · intro h; exact absurd h (by simp)
        · rintro (h | ⟨hip', _⟩)
          · exact absurd h hsd
          · rw [hip] at hip'; exact absurd hip' (by simp)
      · simp only [if_neg hip, Bool.not_eq_true] at hip ⊢
        cases hidx : strIndexOf s d with
        | none =>
          simp only [hip]
          constructor
          · intro h; exact absurd h (by simp)
          · rintro (h | ⟨_, i, _, _, hocc, hmin, _⟩)
            · exact absurd h hsd
            · have := (strIndexOf_eq_some_iff s d i).mpr ⟨hocc, hmin⟩
              rw [hidx] at this; exact absurd this (by simp)
        | some idx =>
          rcases (strIndexOf_eq_some_iff s d idx).mp hidx with ⟨hocc, hmin⟩
          simp only [hip]
          constructor
          · intro h
            by_cases h0 : idx = 0
            · rw [if_pos h0] at h; exact absurd h (by simp)
            · rw [if_neg h0] at h
              by_cases hlen : s.length ≠ d.length + idx
              · rw [if_pos hlen] at h; exact absurd h (by simp)
              · rw [if_neg hlen] at h
                by_cases hdot : (s.drop (idx - 1)).head? ≠ some '.'
                · rw [if_pos hdot] at h; exact absurd h (by simp)
                · push_neg at hlen hdot
                  exact Or.inr ⟨by simp [hip], idx, by omega, hlen, hocc, hmin, hdot⟩
          · rintro (h | ⟨_, i, hi0, hlen, hocc', hmin', hdot⟩)
            · exact absurd h hsd
            · have hieq : i = idx := by
                have := (strIndexOf_eq_some_iff s d i).mpr ⟨hocc', hmin'⟩
                rw [hidx] at this
                exact (Option.some_inj.mp this).symm
              subst hieq
              rw [if_neg (by omega), if_neg (by omega), if_neg (by simpa using hdot)]
  · intro hd hs
    show some (domainMatchCore s d) = some false
    rw [Option.some_inj]
    unfold domainMatchCore
    subst hd
    rw [if_neg hs]
    by_cases hip : isIP s
    · rw [if_pos hip]
    · rw [if_neg hip]
      have : strIndexOf s [] = some 0 := by
        unfold strIndexOf
        rw [if_pos (by simp [List.isPrefixOf])]
      rw [this]
      simp

theorem domainMatch_characterization_witness :
    domainMatch (some ['x']) (some []) false = some false :=
  (domainMatch_characterization ['x'] []).2 rfl (by decide)

/-! ## C7: parseDate totality, year post-processing, 1601 floor -/

/-- Any year recorded by one loop iteration is at least 1601 (a smaller
adjusted year aborts the parse on the spot). -/
theorem processToken_year (st : DateState) (tok : Str) (st' : DateState)
    (h : processToken st tok = some st') :
    st'.year = st.year ∨ ∃ y, st'.year = some y ∧ 1601 ≤ y := by
  simp only [processToken] at h
  repeat' split at h
  all_goals first
    | exact Option.noConfusion h
    | (injection h with h; subst h; first
        | exact Or.inl rfl
        | exact Or.inr ⟨_, rfl, by omega⟩)

/-- The year invariant carried through the token fold. -/
theorem foldTokens_year (toks : List Str) (st0 : DateState)
    (h0 : ∀ y, st0.year = some y → 1601 ≤ y) (st : DateState)
    (h : toks.foldlM processToken st0 = some st) :
    ∀ y, st.year = some y → 1601 ≤ y := by
  induction toks generalizing st0 with
  | nil =>
    simp only [List.foldlM_nil, Option.pure_def, Option.some_inj] at h
    exact h ▸ h0
  | cons tok t ih =>
    rw [List.foldlM_cons] at h
    cases hp : processToken st0 tok with
    | none => rw [hp] at h; exact absurd h (by simp)
    | some st1 =>
      rw [hp] at h
      simp only [Option.bind_eq_bind, Option.some_bind] at h
      refine ih st1 ?_ h
      intro y hy
      rcases processToken_year st0 tok st1 hp with heq | ⟨y', hy', hge⟩
      · exact h0 y (heq ▸ hy)
      · rw [hy'] at hy; injection hy with hh; omega

/-- C7: `parseDate` always returns an instant or nothing (the embedding is
total — the source never throws); a 2-digit year token's value 70–99 is
raised by 1900 and 0–69 by 2000 (witnessed end-to-end by the `70`/`69`
strings); any run that records a year records one ≥ 1601, so year 1600
fails while 1601 succeeds; and the parse fails whenever time, day, month
or year is still unset after all tokens. -/
theorem parseDate_year_rules :
    (∀ s : Str, parseDate s = none ∨ ∃ ms, parseDate s = some ms) ∧
    (∀ y : Nat, 70 ≤ y → y ≤ 99 → adjustYear y = y + 1900) ∧
    (∀ y : Nat, y ≤ 69 → adjustYear y = y + 2000) ∧
    (∀ (s : Str) (st : DateState), parseDateTokens s = some st →
      ∀ y, st.year = some y → 1601 ≤ y) ∧
    (∀ (s : Str) (st : DateState), parseDateTokens s = some st →
      (st.seconds = none ∨ st.day = none ∨ st.month = none ∨ st.year = none) →
      parseDate s = none) ∧
    parseDate "01 Jan 1600 00:00:00".toList = none ∧
    (parseDate "01 Jan 1601 00:00:00".toList).isSome = true ∧
    parseDate "01 Jan 70 00:00:00".toList = some 0 ∧
    parseDate "01 Jan 69 00:00:00".toList = some 3124224000000 := by
  refine ⟨?_, ?_, ?_, ?_, ?_, by decide, by decide, by decide, by decide⟩
  · intro s
    cases h : parseDate s with
    | none => exact Or.inl rfl
    | some ms => exact Or.inr ⟨ms, rfl⟩
  · intro y h1 h2
    unfold adjustYear
    rw [if_pos ⟨h1, h2⟩]
  · intro y h1
    unfold adjustYear
    rw [if_neg (by omega), if_pos h1]
  · intro s st h
    exact foldTokens_year _ _ (by intro y hy; exact absurd hy (by simp [DateState])) st h
  · intro s st h hunset
    unfold parseDate
    by_cases hs : s = []
    · rw [if_pos hs]
    · rw [if_neg hs, h]
      exact if_pos hunset

theorem parseDate_year_rules_witness :
    adjustYear 85 = 1985 ∧ adjustYear 5 = 2005 ∧
    (1601 : Nat) ≤ 1970 ∧ parseDate "01 Jan".toList = none :=
  ⟨parseDate_year_rules.2.1 85 (by decide) (by decide),
   parseDate_year_rules.2.2.1 5 (by decide),
   parseDate_year_rules.2.2.2.1 "01 Jan 70 00:00:00".toList
     ⟨some 0, some 0, some 0, some 1, some 0, some 1970⟩ (by decide) 1970 rfl,
   parseDate_year_rules.2.2.2.2.1 "01 Jan".toList
     ⟨none, none, none, some 1, some 0, none⟩ (by decide) (Or.inl rfl)⟩

/-! ## C8: validate() -/

/-- C8 counterexample: three cookies on which the claim's characterization
disagrees with the source.  An empty `value` fails `validate` (the
`COOKIE_OCTETS` regex demands a non-empty run) although the claim allows
"empty"; a `-Forever` `maxAge` fails (the string coerces to `-Infinity`,
and `-Infinity <= 0`) although the claim lists it as valid; and the path
`"/;"` passes (the unanchored `PATH_VALUE.test` only asks for *some*
allowed character) although it contains `;`, which the claim's
"contains only" reading rejects. -/
theorem validate_claim_counterexample :
    Cookie.validate wPs { value := [] } = false ∧
    Cookie.validate wPs { value := ['a'], maxAge := .negInf } = false ∧
    Cookie.validate wPs { value := ['a'], path := some ['/', ';'] } = true ∧
    isPathValueChar ';' = false := by
  refine ⟨by decide, by decide, by decide, by decide⟩

theorem cookieOctetsTest_iff (v : Str) :
    cookieOctetsTest v = true ↔ (v ≠ [] ∧ ∀ ch ∈ v, isCookieOctet ch = true) := by
  unfold cookieOctetsTest
  simp [List.all_eq_true, List.isEmpty_iff]

set_option maxHeartbeats 2000000 in
/-- C8 (amended): `validate()` returns true iff the `value` is a
*non-empty* run of cookie-octets; `expires` is the sentinel, a date, or a
string that parses as a date; `maxAge`, when present, is `> 0` or the
`+Forever` sentinel (`-Forever` fails); `path`, when present, contains *at
least one* character in `\x20`–`\x3A` or `\x3C`–`\x7E`; and the canonical
domain, when present and non-empty, does not end in `.` and is not itself
a public suffix. -/
theorem validate_characterization (ps : Str → Bool) (c : Cookie) :
    c.validate ps = true ↔
      ((c.value ≠ [] ∧ ∀ ch ∈ c.value, isCookieOctet ch = true) ∧
       (∀ s, c.expires = .str s → s ≠ "Infinity".toList → ∃ ms, parseDate s = some ms) ∧
       (∀ n, c.maxAge = .fin n → 0 < n) ∧ c.maxAge ≠ .negInf ∧
       (∀ p, c.path = some p → ∃ ch ∈ p, isPathValueChar ch = true) ∧
       (∀ cd, c.cdomain = some cd → cd ≠ [] →
          cd.getLast? ≠ some '.' ∧ ps cd = false)) := by
  obtain ⟨key, value, expires, maxAge, domain, path, sec, ho, ext, hon, pid, cr, la, ci⟩ := c
  simp only [Cookie.validate, Cookie.cdomain]
  cases expires <;> cases maxAge <;> cases domain <;> cases path <;>
    simp [Expires.looseNeInfinity, MaxAge.isSet, MaxAge.le0, canonicalDomain,
          getPublicSuffix, cookieOctetsTest_iff, pathValueTest, List.any_eq_true,
          Option.isNone_iff_eq_none, Option.ne_none_iff_exists'] <;>
    try tauto

/-! ## Store lemmas -/

theorem failWith_ne_ok (opts : SetCookieOptions) (e : SetCookieError) (c : Cookie) :
    failWith opts e ≠ SetCookieOutcome.ok c := by
  unfold failWith; split <;> simp

theorem failWith_pair_ne_ok {opts : SetCookieOptions} {e : SetCookieError} {c : Cookie}
    {s1 s2 : Store} (h : (failWith opts e, s1) = (SetCookieOutcome.ok c, s2)) : False := by
  rw [Prod.mk.injEq] at h
  exact failWith_ne_ok opts e c h.1

theorem find?_filter_not (st : List Cookie) (p : Cookie → Bool) :
    (st.filter (fun x => !p x)).find? p = none := by
  rw [List.find?_eq_none]
  intro a ha
  have := (List.mem_filter.mp ha).2
  simp at this
  simp [this]

theorem findCookie_putCookie (st : Store) (c : Cookie) :
    findCookie (putCookie st c) c.domain c.path c.key = some c := by
  unfold findCookie putCookie
  rw [List.find?_append, find?_filter_not]
  simp [List.find?, idMatches]

theorem countP_putCookie (st : Store) (c : Cookie) :
    (putCookie st c).countP (fun x => idMatches x c.domain c.path c.key) = 1 := by
  unfold putCookie
  rw [List.countP_append]
  have h0 : (st.filter (fun x => !idMatches x c.domain c.path c.key)).countP
      (fun x => idMatches x c.domain c.path c.key) = 0 := by
    rw [List.countP_eq_zero]
    intro a ha
    have := (List.mem_filter.mp ha).2
    simp at this
    simp [this]
  rw [h0]
  simp [List.countP, List.countP.go, idMatches]

/-- What a successful `withCookie` continuation guarantees: the delivered
cookie is the stored one, every field except `creation`, `creationIndex`
and `lastAccessed` comes from the policy-adjusted cookie, and those three
are taken from the prior record (when one exists) resp. set to `now`. -/
theorem withCookie_ok (opts : SetCookieOptions) (store : Store) (now : Int)
    (cookie : Cookie) (oldOpt : Option Cookie) (c : Cookie) (st' : Store)
    (h : withCookie opts store now cookie oldOpt = (SetCookieOutcome.ok c, st')) :
    c.key = cookie.key ∧ c.value = cookie.value ∧ c.expires = cookie.expires ∧
    c.maxAge = cookie.maxAge ∧ c.domain = cookie.domain ∧ c.path = cookie.path ∧
    c.secure = cookie.secure ∧ c.httpOnly = cookie.httpOnly ∧
    c.extensions = cookie.extensions ∧ c.hostOnly = cookie.hostOnly ∧
    c.pathIsDefault = cookie.pathIsDefault ∧
    st' = putCookie store c ∧
    (∀ old, oldOpt = some old → c.creation = old.creation ∧
      c.creationIndex = old.creationIndex ∧ c.lastAccessed = some now) ∧
    (oldOpt = none → c.creation = some now ∧ c.lastAccessed = some now) := by
  cases oldOpt with
  | some old =>
    simp only [withCookie] at h
    split at h
    · exact (failWith_pair_ne_ok h).elim
    · rw [Prod.mk.injEq] at h
      obtain ⟨hc, hst⟩ := h
      injection hc with hc
      subst hc
      subst hst
      refine ⟨rfl, rfl, rfl, rfl, rfl, rfl, rfl, rfl, rfl, rfl, rfl, rfl, ?_, by simp⟩
      intro old' hold'
      injection hold' with hold'
      subst hold'
      exact ⟨rfl, rfl, rfl⟩
  | none =>
    simp only [withCookie] at h
    rw [Prod.mk.injEq] at h
    obtain ⟨hc, hst⟩ := h
    injection hc with hc
    subst hc
    subst hst
    exact ⟨rfl, rfl, rfl, rfl, rfl, rfl, rfl, rfl, rfl, rfl, rfl, rfl, by simp,
      fun _ => ⟨rfl, rfl⟩⟩

/-- Decomposition of a successful `setCookie` run: the input parsed to
`cookie0`; the S5.3 domain step produced `cookie1` (either the
domain-match route, which sets `hostOnly := false` only when still
unknown, or the host-only route, which sets `hostOnly := true` and
`domain := host`); the path default produced `cookie2`; and the
`withCookie` continuation ran on the store lookup at `cookie2`'s identity
triple. -/
theorem setCookie_ok_inv (ps : Str → Bool) (jar : CookieJar) (input : Sum Str Cookie)
    (ctx : Context) (opts : SetCookieOptions) (defaultNow : Int) (mintIdx : Nat)
    (c : Cookie) (st' : Store)
    (hrun : jar.setCookie ps input ctx opts defaultNow mintIdx = (SetCookieOutcome.ok c, st')) :
    ∃ cookie0 cookie1 cookie2 : Cookie,
      parsedInput (opts.loose.getD jar.enableLooseMode) input defaultNow mintIdx = some cookie0 ∧
      ((truthyStr cookie0.domain = true ∧
          truthyB (domainMatch (canonicalDomain ctx.hostname) cookie0.cdomain false) = true ∧
          cookie1 = (if cookie0.hostOnly = none
            then { cookie0 with hostOnly := some false } else cookie0)) ∨
       (truthyStr cookie0.domain = false ∧
          cookie1 = { cookie0 with
            hostOnly := some true
            domain := canonicalDomain ctx.hostname })) ∧
      cookie2 = (if pathNeedsDefault cookie1.path then
          { cookie1 with path := some (defaultPath ctx.pathname), pathIsDefault := some true }
        else cookie1) ∧
      withCookie opts jar.store (opts.now.getD defaultNow) cookie2
        (findCookie jar.store cookie2.domain cookie2.path cookie2.key) =
        (SetCookieOutcome.ok c, st') := by
  simp only [CookieJar.setCookie] at hrun
  split at hrun
  · exact (failWith_pair_ne_ok hrun).elim
  · rename_i cookie0 hparsed
    split at hrun
    · exact (failWith_pair_ne_ok hrun).elim
    · split at hrun
      · exact (failWith_pair_ne_ok hrun).elim
      · rename_i cookie1 hdom
        have hstage : (truthyStr cookie0.domain = true ∧
            truthyB (domainMatch (canonicalDomain ctx.hostname) cookie0.cdomain false) = true ∧
            cookie1 = (if cookie0.hostOnly = none
              then { cookie0 with hostOnly := some false } else cookie0)) ∨
           (truthyStr cookie0.domain = false ∧
            cookie1 = { cookie0 with
              hostOnly := some true
              domain := canonicalDomain ctx.hostname }) := by
          by_cases ht : truthyStr cookie0.domain = true
          · rw [if_pos ht] at hdom
            by_cases hm : truthyB (domainMatch (canonicalDomain ctx.hostname)
                cookie0.cdomain false) = true
            · rw [if_neg (by simp [hm])] at hdom
              injection hdom with hdom
              exact Or.inl ⟨ht, hm, hdom.symm⟩
            · rw [if_pos (by simp only [Bool.not_eq_true] at hm ⊢; simp [hm])] at hdom
              exact Option.noConfusion hdom
          · rw [if_neg ht] at hdom
            injection hdom with hdom
            exact Or.inr ⟨by simpa using ht, hdom.symm⟩
        split at hrun
        · rename_i hpd
          split at hrun
          · exact (failWith_pair_ne_ok hrun).elim
          · exact ⟨cookie0, cookie1, _, hparsed, hstage, (if_pos hpd).symm, hrun⟩
        · rename_i hpd
          split at hrun
          · exact (failWith_pair_ne_ok hrun).elim
          · exact ⟨cookie0, cookie1, _, hparsed, hstage, (if_neg hpd).symm, hrun⟩

/-! ## C1: replacement at an existing identity triple -/

/-- C1: when `setCookie` succeeds and the store already held a cookie
`old` at the accepted cookie's identity triple, the store afterwards
holds exactly the new cookie at that triple (only the later cookie
remains), and the stored replacement keeps `old.creation` and
`old.creationIndex` while its `lastAccessed` is set to the operation's
current time (`options.now` or the clock). -/
theorem setCookie_replaces_at_triple (ps : Str → Bool) (jar : CookieJar)
    (input : Sum Str Cookie) (ctx : Context) (opts : SetCookieOptions)
    (defaultNow : Int) (mintIdx : Nat) (c old : Cookie) (st' : Store)
    (hrun : jar.setCookie ps input ctx opts defaultNow mintIdx = (SetCookieOutcome.ok c, st'))
    (hold : findCookie jar.store c.domain c.path c.key = some old) :
    findCookie st' c.domain c.path c.key = some c ∧
    st'.countP (fun x => idMatches x c.domain c.path c.key) = 1 ∧
    c.creation = old.creation ∧
    c.creationIndex = old.creationIndex ∧
    c.lastAccessed = some (opts.now.getD defaultNow) := by
  obtain ⟨c0, c1, c2, hparsed, hstage, hc2, hw⟩ :=
    setCookie_ok_inv ps jar input ctx opts defaultNow mintIdx c st' hrun
  obtain ⟨hk, hv, hex, hma, hdm, hp, hs, hh, hext, hho, hpid, hst, hsome, hnone⟩ :=
    withCookie_ok _ _ _ _ _ _ _ hw
  rw [hdm, hp, hk] at hold
  obtain ⟨hcr, hci, hla⟩ := hsome old hold
  refine ⟨?_, ?_, hcr, hci, hla⟩
  · rw [hst]; exact findCookie_putCookie _ _
  · rw [hst]; exact countP_putCookie _ _

/-- The prior cookie used by the C1 witness run. -/
def wOld : Cookie :=
  { key := ['a'], value := ['1'], domain := some "example.com".toList,
    path := some ['/'], hostOnly := some true, pathIsDefault := some true,
    creation := some 5, lastAccessed := some 5, creationIndex := 3 }

/-- The replacement the C1 witness run stores. -/
def wRep : Cookie :=
  { key := ['a'], value := ['2'], domain := some "example.com".toList,
    path := some ['/'], hostOnly := some true, pathIsDefault := some true,
    creation := some 5, lastAccessed := some 100, creationIndex := 3 }

theorem setCookie_replaces_at_triple_witness :
    findCookie [wRep] wRep.domain wRep.path wRep.key = some wRep ∧
    ([wRep] : Store).countP (fun x => idMatches x wRep.domain wRep.path wRep.key) = 1 ∧
    wRep.creation = wOld.creation ∧
    wRep.creationIndex = wOld.creationIndex ∧
    wRep.lastAccessed = some (({} : SetCookieOptions).now.getD 100) :=
  setCookie_replaces_at_triple wPs { store := [wOld] }
    (Sum.inr { key := ['a'], value := ['2'] }) wCtx {} 100 7 wRep wOld [wRep]
    (by decide) (by decide)

/-! ## C3: host-only cookies bind to the canonical request host -/

/-- C3: a cookie accepted by `setCookie` that carried no `Domain`
attribute (a falsy `domain` after parsing) is stored with
`hostOnly = true` and its `domain` equal to the canonical domain of the
request host at the moment of acceptance. -/
theorem setCookie_hostOnly_domain (ps : Str → Bool) (jar : CookieJar)
    (input : Sum Str Cookie) (ctx : Context) (opts : SetCookieOptions)
    (defaultNow : Int) (mintIdx : Nat) (c0 c : Cookie) (st' : Store)
    (hparsed : parsedInput (opts.loose.getD jar.enableLooseMode) input defaultNow mintIdx
      = some c0)
    (hnodom : truthyStr c0.domain = false)
    (hrun : jar.setCookie ps input ctx opts defaultNow mintIdx = (SetCookieOutcome.ok c, st')) :
    c.hostOnly = some true ∧ c.domain = canonicalDomain ctx.hostname := by
  obtain ⟨c0', c1, c2, hparsed', hstage, hc2, hw⟩ :=
    setCookie_ok_inv ps jar input ctx opts defaultNow mintIdx c st' hrun
  rw [hparsed] at hparsed'
  injection hparsed' with he
  subst he
  rcases hstage with ⟨ht, _, _⟩ | ⟨_, hc1⟩
  · rw [hnodom] at ht
    exact Bool.noConfusion ht
  · obtain ⟨hk, hv, hex, hma, hdm, hp, hs, hh, hext, hho, hpid, hst, hsome, hnone⟩ :=
      withCookie_ok _ _ _ _ _ _ _ hw
    have h2 : c2.hostOnly = some true ∧ c2.domain = canonicalDomain ctx.hostname := by
      rw [hc2]
      constructor
      · split <;> simp [hc1]
      · split <;> simp [hc1]
    exact ⟨hho.trans h2.1, hdm.trans h2.2⟩

theorem setCookie_hostOnly_domain_witness :
    wRep.hostOnly = some true ∧ wRep.domain = canonicalDomain wCtx.hostname :=
  setCookie_hostOnly_domain wPs { store := [wOld] }
    (Sum.inr { key := ['a'], value := ['2'] }) wCtx {} 100 7
    { key := ['a'], value := ['2'] } wRep [wRep]
    (by decide) (by decide) (by decide)

/-! ## C9: accepted cookies have an absolute path -/

theorem pathNeedsDefault_false {po : Option Str} (h : pathNeedsDefault po = false) :
    ∃ p, po = some p ∧ p.head? = some '/' := by
  cases po with
  | none => exact Bool.noConfusion h
  | some p =>
    refine ⟨p, rfl, ?_⟩
    unfold pathNeedsDefault at h
    simpa using h

/-- C9: every cookie accepted by `setCookie` is stored with a present
path beginning with `/`; when the incoming cookie's path was absent or
did not start with `/`, the stored path is `defaultPath` of the request
URL's path and `pathIsDefault` is set — and `defaultPath` always yields a
string beginning with `/`. -/
theorem setCookie_path_invariant (ps : Str → Bool) (jar : CookieJar)
    (input : Sum Str Cookie) (ctx : Context) (opts : SetCookieOptions)
    (defaultNow : Int) (mintIdx : Nat) (c : Cookie) (st' : Store)
    (hrun : jar.setCookie ps input ctx opts defaultNow mintIdx = (SetCookieOutcome.ok c, st')) :
    (∃ p, c.path = some p ∧ p.head? = some '/') ∧
    (∀ c0, parsedInput (opts.loose.getD jar.enableLooseMode) input defaultNow mintIdx
        = some c0 →
      pathNeedsDefault c0.path = true →
      c.path = some (defaultPath ctx.pathname) ∧ c.pathIsDefault = some true) ∧
    (∀ q, (defaultPath q).head? = some '/') := by
  obtain ⟨c0, c1, c2, hparsed, hstage, hc2, hw⟩ :=
    setCookie_ok_inv ps jar input ctx opts defaultNow mintIdx c st' hrun
  obtain ⟨hk, hv, hex, hma, hdm, hp, hs, hh, hext, hho, hpid, hst, hsome, hnone⟩ :=
    withCookie_ok _ _ _ _ _ _ _ hw
  have hc1path : c1.path = c0.path := by
    rcases hstage with ⟨_, _, hc1⟩ | ⟨_, hc1⟩
    · rw [hc1]; split <;> rfl
    · rw [hc1]
  refine ⟨?_, ?_, fun q => defaultPath_head q⟩
  · cases hpd : pathNeedsDefault c1.path with
    | true =>
      rw [if_pos hpd] at hc2
      refine ⟨defaultPath ctx.pathname, ?_, defaultPath_head _⟩
      rw [hp, hc2]
    | false =>
      rw [if_neg (by simp [hpd])] at hc2
      obtain ⟨p, hpo, hhead⟩ := pathNeedsDefault_false hpd
      exact ⟨p, by rw [hp, hc2, hpo], hhead⟩
  · intro c0' hparsed' hneed
    rw [hparsed] at hparsed'
    injection hparsed' with he
    subst he
    have hpd : pathNeedsDefault c1.path = true := by rw [hc1path]; exact hneed
    rw [if_pos hpd] at hc2
    exact ⟨by rw [hp, hc2], by rw [hpid, hc2]⟩

theorem setCookie_path_invariant_witness :
    (∃ p, wRep.path = some p ∧ p.head? = some '/') ∧
    wRep.path = some (defaultPath wCtx.pathname) ∧ wRep.pathIsDefault = some true ∧
    (defaultPath (some "/a/b".toList)).head? = some '/' := by
  obtain ⟨h1, h2, h3⟩ := setCookie_path_invariant wPs { store := [wOld] }
    (Sum.inr { key := ['a'], value := ['2'] }) wCtx {} 100 7 wRep [wRep] (by decide)
  exact ⟨h1, (h2 { key := ['a'], value := ['2'] } (by decide) (by decide)).1,
    (h2 { key := ['a'], value := ['2'] } (by decide) (by decide)).2, h3 (some "/a/b".toList)⟩

/-! ## C4: every policy failure respects ignoreError -/

theorem failWith_cases (opts : SetCookieOptions) (e : SetCookieError) (store : Store) :
    (opts.ignoreError = false ∧ (failWith opts e, store) = (SetCookieOutcome.err e, store)) ∨
    (opts.ignoreError = true ∧ (failWith opts e, store) = (SetCookieOutcome.ignoredErr, store)) := by
  unfold failWith
  by_cases h : opts.ignoreError
  · exact Or.inr ⟨h, by rw [if_pos h]⟩
  · exact Or.inl ⟨by simpa using h, by rw [if_neg h]⟩

theorem withCookie_modes (opts : SetCookieOptions) (store : Store) (now : Int)
    (cookie : Cookie) (oldOpt : Option Cookie) :
    (∃ c st', withCookie opts store now cookie oldOpt = (SetCookieOutcome.ok c, st')) ∨
    (opts.ignoreError = false ∧
      ∃ e, withCookie opts store now cookie oldOpt = (SetCookieOutcome.err e, store)) ∨
    (opts.ignoreError = true ∧
      withCookie opts store now cookie oldOpt = (SetCookieOutcome.ignoredErr, store)) := by
  cases oldOpt with
  | none => exact Or.inl ⟨_, _, rfl⟩
  | some old =>
    simp only [withCookie]
    split
    · rcases failWith_cases opts .httpOnlyOld store with ⟨hi, heq⟩ | ⟨hi, heq⟩
      · exact Or.inr (Or.inl ⟨hi, _, heq⟩)
      · exact Or.inr (Or.inr ⟨hi, heq⟩)
    · exact Or.inl ⟨_, _, rfl⟩

/-- A prior `httpOnly` cookie for the C4 replacement-failure run. -/
def wHttpOld : Cookie :=
  { key := ['a'], value := ['1'], domain := some "example.com".toList,
    path := some ['/'], httpOnly := true, hostOnly := some true,
    creation := some 5, lastAccessed := some 5, creationIndex := 3 }

/-- C4: every run of `setCookie` either succeeds, or — on a policy
failure (parse failure, public-suffix rejection, domain mismatch, or an
`httpOnly` cookie being set or replaced from a non-HTTP context, the five
constructors of `SetCookieError`) — delivers an error when `ignoreError`
is unset and a null error with no cookie when it is set, leaving the
store untouched; each failure kind is exhibited by a concrete run. -/
theorem setCookie_failure_modes :
    (∀ (ps : Str → Bool) (jar : CookieJar) (input : Sum Str Cookie) (ctx : Context)
        (opts : SetCookieOptions) (defaultNow : Int) (mintIdx : Nat),
      (∃ c st', jar.setCookie ps input ctx opts defaultNow mintIdx
        = (SetCookieOutcome.ok c, st')) ∨
      (opts.ignoreError = false ∧ ∃ e, jar.setCookie ps input ctx opts defaultNow mintIdx
        = (SetCookieOutcome.err e, jar.store)) ∨
      (opts.ignoreError = true ∧ jar.setCookie ps input ctx opts defaultNow mintIdx
        = (SetCookieOutcome.ignoredErr, jar.store))) ∧
    CookieJar.setCookie wPs {} (Sum.inl []) wCtx {} 100 1
      = (SetCookieOutcome.err .parseFailure, []) ∧
    CookieJar.setCookie wPs {} (Sum.inl "a=1; Domain=com".toList) wCtx {} 100 1
      = (SetCookieOutcome.err .publicSuffix, []) ∧
    CookieJar.setCookie wPs {} (Sum.inl "a=1; Domain=other.org".toList) wCtx {} 100 1
      = (SetCookieOutcome.err .domainMismatch, []) ∧
    CookieJar.setCookie wPs {} (Sum.inl "h=1; HttpOnly".toList) wCtx { http := some false } 100 1
      = (SetCookieOutcome.err .httpOnlyNew, []) ∧
    CookieJar.setCookie wPs { store := [wHttpOld] }
      (Sum.inr { key := ['a'], value := ['2'] }) wCtx { http := some false } 100 1
      = (SetCookieOutcome.err .httpOnlyOld, [wHttpOld]) ∧
    CookieJar.setCookie wPs {} (Sum.inl "a=1; Domain=com".toList) wCtx
      { ignoreError := true } 100 1 = (SetCookieOutcome.ignoredErr, []) := by
  refine ⟨?_, by decide, by decide, by decide, by decide, by decide, by decide⟩
  intro ps jar input ctx opts defaultNow mintIdx
  simp only [CookieJar.setCookie]
  split
  · rcases failWith_cases opts .parseFailure jar.store with ⟨hi, heq⟩ | ⟨hi, heq⟩
    · exact Or.inr (Or.inl ⟨hi, _, heq⟩)
    · exact Or.inr (Or.inr ⟨hi, heq⟩)
  · split
    · rcases failWith_cases opts .publicSuffix jar.store with ⟨hi, heq⟩ | ⟨hi, heq⟩
      · exact Or.inr (Or.inl ⟨hi, _, heq⟩)
      · exact Or.inr (Or.inr ⟨hi, heq⟩)
    · split
      · rcases failWith_cases opts .domainMismatch jar.store with ⟨hi, heq⟩ | ⟨hi, heq⟩
        · exact Or.inr (Or.inl ⟨hi, _, heq⟩)
        · exact Or.inr (Or.inr ⟨hi, heq⟩)
      · split
        · split
          · rcases failWith_cases opts .httpOnlyNew jar.store with ⟨hi, heq⟩ | ⟨hi, heq⟩
            · exact Or.inr (Or.inl ⟨hi, _, heq⟩)
            · exact Or.inr (Or.inr ⟨hi, heq⟩)
          · exact withCookie_modes opts jar.store _ _ _
        · split
          · rcases failWith_cases opts .httpOnlyNew jar.store with ⟨hi, heq⟩ | ⟨hi, heq⟩
            · exact Or.inr (Or.inl ⟨hi, _, heq⟩)
            · exact Or.inr (Or.inr ⟨hi, heq⟩)
          · exact withCookie_modes opts jar.store _ _ _

/-! ## C2: the getCookies candidate filter -/

/-- The claim-side reading of the jar's five filters, in source order. -/
def FilterOK (host : Option Str) (path : Str) (secure http allPaths : Bool)
    (c : Cookie) : Prop :=
  (truthyB c.hostOnly = true → c.domain = host) ∧
  (truthyB c.hostOnly = false → truthyB (domainMatch host c.domain false) = true) ∧
  (allPaths = false → pathMatch path c.path = true) ∧
  (c.secure = true → secure = true) ∧
  (c.httpOnly = true → http = true)

theorem hostCond_iff (host : Option Str) (c : Cookie) :
    (¬ if truthyB c.hostOnly = true then c.domain ≠ host
       else (!truthyB (domainMatch host c.domain false)) = true) ↔
      ((truthyB c.hostOnly = true → c.domain = host) ∧
       (truthyB c.hostOnly = false → truthyB (domainMatch host c.domain false) = true)) := by
  by_cases hh : truthyB c.hostOnly = true
  · simp [hh]
  · simp only [Bool.not_eq_true] at hh
    simp [hh]

/-- The filter's verdict, characterized: a candidate is kept iff it passes
host scope, path scope (unless `allPaths`), the secure and http gates, and
— when expiry checking is on — its `expiryTime()` is strictly after
`now`; a removal is requested iff it passes those first four filters,
expiry checking is on, and `expiryTime() ≤ now`. -/
theorem matchingCookie_iff (host : Option Str) (path : Str)
    (secure http expireCheck allPaths : Bool) (now currentMs : Int) (c : Cookie)
    (b r : Bool)
    (h : matchingCookie host path secure http expireCheck allPaths now currentMs c
      = some (b, r)) :
    (b = true ↔ (FilterOK host path secure http allPaths c ∧
      (expireCheck = true →
        ∃ et, c.expiryTime currentMs none = some et ∧ et.leInt now = false))) ∧
    (r = true ↔ (FilterOK host path secure http allPaths c ∧ expireCheck = true ∧
      ∃ et, c.expiryTime currentMs none = some et ∧ et.leInt now = true)) := by
  unfold matchingCookie at h
  unfold FilterOK
  by_cases hc1 : (if truthyB c.hostOnly = true then c.domain ≠ host
      else (!truthyB (domainMatch host c.domain false)) = true)
  · rw [if_pos hc1] at h
    injection h with h
    rw [Prod.mk.injEq] at h
    obtain ⟨hb, hr⟩ := h
    subst hb; subst hr
    constructor
    · constructor
      · intro hfalse; exact Bool.noConfusion hfalse
      · rintro ⟨⟨p1, p2, _, _, _⟩, _⟩
        exact absurd hc1 (by rw [hostCond_iff]; exact ⟨p1, p2⟩)
    · constructor
      · intro hfalse; exact Bool.noConfusion hfalse
      · rintro ⟨⟨p1, p2, _, _, _⟩, _⟩
        exact absurd hc1 (by rw [hostCond_iff]; exact ⟨p1, p2⟩)
  · rw [if_neg hc1] at h
    rw [hostCond_iff] at hc1
    by_cases hc2 : ((!allPaths) = true ∧ (!pathMatch path c.path) = true)
    · rw [if_pos hc2] at h
      injection h with h
      rw [Prod.mk.injEq] at h
      obtain ⟨hb, hr⟩ := h
      subst hb; subst hr
      have hfail : ¬ (allPaths = false → pathMatch path c.path = true) := by
        obtain ⟨ha, hm⟩ := hc2
        simp only [Bool.not_eq_true'] at ha hm
        intro himp
        rw [himp ha] at hm
        exact Bool.noConfusion hm
      constructor
      · constructor
        · intro hfalse; exact Bool.noConfusion hfalse
        · rintro ⟨⟨_, _, p3, _, _⟩, _⟩; exact absurd p3 hfail
      · constructor
        · intro hfalse; exact Bool.noConfusion hfalse
        · rintro ⟨⟨_, _, p3, _, _⟩, _⟩; exact absurd p3 hfail
    · rw [if_neg hc2] at h
      have hpath : allPaths = false → pathMatch path c.path = true := by
        intro ha
        by_contra hm
        exact hc2 ⟨by simp [ha], by simp only [Bool.not_eq_true] at hm; simp [hm]⟩
      by_cases hc3 : (c.secure = true ∧ (!secure) = true)
      · rw [if_pos hc3] at h
        injection h with h
        rw [Prod.mk.injEq] at h
        obtain ⟨hb, hr⟩ := h
        subst hb; subst hr
        have hfail : ¬ (c.secure = true → secure = true) := by
          obtain ⟨hs1, hs2⟩ := hc3
          simp only [Bool.not_eq_true'] at hs2
          intro himp
          rw [himp hs1] at hs2
          exact Bool.noConfusion hs2
        constructor
        · constructor
          · intro hfalse; exact Bool.noConfusion hfalse
          · rintro ⟨⟨_, _, _, p4, _⟩, _⟩; exact absurd p4 hfail
        · constructor
          · intro hfalse; exact Bool.noConfusion hfalse
          · rintro ⟨⟨_, _, _, p4, _⟩, _⟩; exact absurd p4 hfail
      · rw [if_neg hc3] at h
        have hsec : c.secure = true → secure = true := by
          intro hs
          by_contra hns
          exact hc3 ⟨hs, by simp only [Bool.not_eq_true] at hns; simp [hns]⟩
        by_cases hc4 : (c.httpOnly = true ∧ (!http) = true)
        · rw [if_pos hc4] at h
          injection h with h
          rw [Prod.mk.injEq] at h
          obtain ⟨hb, hr⟩ := h
          subst hb; subst hr
          have hfail : ¬ (c.httpOnly = true → http = true) := by
            obtain ⟨hh1, hh2⟩ := hc4
            simp only [Bool.not_eq_true'] at hh2
            intro himp
            rw [himp hh1] at hh2
            exact Bool.noConfusion hh2
          constructor
          · constructor
            · intro hfalse; exact Bool.noConfusion hfalse
            · rintro ⟨⟨_, _, _, _, p5⟩, _⟩; exact absurd p5 hfail
          · constructor
            · intro hfalse; exact Bool.noConfusion hfalse
            · rintro ⟨⟨_, _, _, _, p5⟩, _⟩; exact absurd p5 hfail
        · rw [if_neg hc4] at h
          have hhttp : c.httpOnly = true → http = true := by
            intro hs
            by_contra hns
            exact hc4 ⟨hs, by simp only [Bool.not_eq_true] at hns; simp [hns]⟩
          have hfok : (truthyB c.hostOnly = true → c.domain = host) ∧
              (truthyB c.hostOnly = false → truthyB (domainMatch host c.domain false) = true) ∧
              (allPaths = false → pathMatch path c.path = true) ∧
              (c.secure = true → secure = true) ∧ (c.httpOnly = true → http = true) :=
            ⟨hc1.1, hc1.2, hpath, hsec, hhttp⟩
          by_cases hec : expireCheck = true
          · rw [if_pos hec] at h
            cases het : c.expiryTime currentMs none with
            | none => rw [het] at h; exact Option.noConfusion h
            | some et =>
              rw [het] at h
              simp only [] at h
              by_cases hle : et.leInt now = true
              · rw [if_pos hle] at h
                injection h with h
                rw [Prod.mk.injEq] at h
                obtain ⟨hb, hr⟩ := h
                subst hb; subst hr
                constructor
                · constructor
                  · intro hfalse; exact Bool.noConfusion hfalse
                  · rintro ⟨_, hnx⟩
                    obtain ⟨et', het', hle'⟩ := hnx hec
                    injection het' with het'
                    subst het'
                    rw [hle] at hle'
                    exact Bool.noConfusion hle'
                · constructor
                  · intro _; exact ⟨hfok, hec, et, rfl, hle⟩
                  · intro _; rfl
              · rw [if_neg hle] at h
                injection h with h
                rw [Prod.mk.injEq] at h
                obtain ⟨hb, hr⟩ := h
                subst hb; subst hr
                simp only [Bool.not_eq_true] at hle
                constructor
                · constructor
                  · intro _; exact ⟨hfok, fun _ => ⟨et, rfl, hle⟩⟩
                  · intro _; rfl
                · constructor
                  · intro hfalse; exact Bool.noConfusion hfalse
                  · rintro ⟨_, _, et', het', hle'⟩
                    injection het' with het'
                    subst het'
                    rw [hle] at hle'
                    exact Bool.noConfusion hle'
          · rw [if_neg hec] at h
            have hecf : expireCheck = false := by
              simp only [Bool.not_eq_true] at hec; exact hec
            injection h with h
            rw [Prod.mk.injEq] at h
            obtain ⟨hb, hr⟩ := h
            subst hb; subst hr
            constructor
            · constructor
              · intro _
                exact ⟨hfok, fun hce => absurd hce (by rw [hecf]; exact Bool.noConfusion)⟩
              · intro _; rfl
            · constructor
              · intro hfalse; exact Bool.noConfusion hfalse
              · rintro ⟨_, hce, _⟩
                rw [hecf] at hce
                exact Bool.noConfusion hce

theorem runFilter_mem_kept (host : Option Str) (path : Str)
    (secure http expireCheck allPaths : Bool) (now currentMs : Int)
    (cands kept : List Cookie) (rems : List (Option Str × Option Str × Str))
    (h : runFilter host path secure http expireCheck allPaths now currentMs cands
      = some (kept, rems)) (c : Cookie) :
    c ∈ kept ↔ (c ∈ cands ∧ ∃ r, matchingCookie host path secure http expireCheck
      allPaths now currentMs c = some (true, r)) := by
  induction cands generalizing kept rems with
  | nil =>
    simp only [runFilter, Option.some_inj, Prod.mk.injEq] at h
    obtain ⟨hk, _⟩ := h
    subst hk
    simp
  | cons c0 t ih =>
    simp only [runFilter] at h
    cases hm : matchingCookie host path secure http expireCheck allPaths now currentMs c0 with
    | none => rw [hm] at h; exact Option.noConfusion h
    | some kr =>
      rw [hm] at h
      simp only [] at h
      cases ht : runFilter host path secure http expireCheck allPaths now currentMs t with
      | none => rw [ht] at h; exact Option.noConfusion h
      | some rest =>
        rw [ht] at h
        simp only [Option.some_inj, Prod.mk.injEq] at h
        obtain ⟨hk, _⟩ := h
        subst hk
        have ihc := ih rest.1 rest.2 (by rw [ht])
        by_cases hkeep : kr.1 = true
        · rw [if_pos hkeep]
          constructor
          · intro hc
            rcases List.mem_cons.mp hc with hc | hc
            · subst hc
              exact ⟨List.mem_cons_self _ _, kr.2, by rw [hm, hkeep.symm]⟩
            · obtain ⟨hmem, r, hr⟩ := ihc.mp hc
              exact ⟨List.mem_cons_of_mem _ hmem, r, hr⟩
          · rintro ⟨hmem, r, hr⟩
            rcases List.mem_cons.mp hmem with hc | hc
            · subst hc
              exact List.mem_cons_self _ _
            · exact List.mem_cons_of_mem _ (ihc.mpr ⟨hc, r, hr⟩)
        · rw [if_neg hkeep]
          constructor
          · intro hc
            obtain ⟨hmem, r, hr⟩ := ihc.mp hc
            exact ⟨List.mem_cons_of_mem _ hmem, r, hr⟩
          · rintro ⟨hmem, r, hr⟩
            rcases List.mem_cons.mp hmem with hc | hc
            · subst hc
              rw [hm] at hr
              injection hr with hr
              rw [hr] at hkeep
              exact absurd rfl hkeep
            · exact ihc.mpr ⟨hc, r, hr⟩

theorem runFilter_mem_rems (host : Option Str) (path : Str)
    (secure http expireCheck allPaths : Bool) (now currentMs : Int)
    (cands kept : List Cookie) (rems : List (Option Str × Option Str × Str))
    (h : runFilter host path secure http expireCheck allPaths now currentMs cands
      = some (kept, rems)) (d p : Option Str) (k : Str) :
    (d, p, k) ∈ rems ↔ (∃ c0 ∈ cands, c0.domain = d ∧ c0.path = p ∧ c0.key = k ∧
      ∃ b, matchingCookie host path secure http expireCheck allPaths now currentMs c0
        = some (b, true)) := by
  induction cands generalizing kept rems with
  | nil =>
    simp only [runFilter, Option.some_inj, Prod.mk.injEq] at h
    obtain ⟨_, hr⟩ := h
    subst hr
    simp
  | cons c0 t ih =>
    simp only [runFilter] at h
    cases hm : matchingCookie host path secure http expireCheck allPaths now currentMs c0 with
    | none => rw [hm] at h; exact Option.noConfusion h
    | some kr =>
      rw [hm] at h
      simp only [] at h
      cases ht : runFilter host path secure http expireCheck allPaths now currentMs t with
      | none => rw [ht] at h; exact Option.noConfusion h
      | some rest =>
        rw [ht] at h
        simp only [Option.some_inj, Prod.mk.injEq] at h
        obtain ⟨_, hr⟩ := h
        subst hr
        have ihr := ih rest.1 rest.2 (by rw [ht])
        by_cases hrem : kr.2 = true
        · rw [if_pos hrem]
          constructor
          · intro hin
            rcases List.mem_cons.mp hin with hc | hc
            · rw [Prod.mk.injEq, Prod.mk.injEq] at hc
              exact ⟨c0, List.mem_cons_self _ _, hc.1.symm, hc.2.1.symm, hc.2.2.symm,
                kr.1, by rw [hm, hrem.symm]⟩
            · obtain ⟨c1, hmem, h1, h2, h3, b, hb⟩ := ihr.mp hc
              exact ⟨c1, List.mem_cons_of_mem _ hmem, h1, h2, h3, b, hb⟩
          · rintro ⟨c1, hmem, h1, h2, h3, b, hb⟩
            rcases List.mem_cons.mp hmem with hc | hc
            · subst hc
              subst h1; subst h2; subst h3
              exact List.mem_cons_self _ _
            · exact List.mem_cons_of_mem _ (ihr.mpr ⟨c1, hc, h1, h2, h3, b, hb⟩)
        · rw [if_neg hrem]
          constructor
          · intro hin
            obtain ⟨c1, hmem, h1, h2, h3, b, hb⟩ := ihr.mp hin
            exact ⟨c1, List.mem_cons_of_mem _ hmem, h1, h2, h3, b, hb⟩
          · rintro ⟨c1, hmem, h1, h2, h3, b, hb⟩
            rcases List.mem_cons.mp hmem with hc | hc
            · subst hc
              rw [hm] at hb
              injection hb with hb
              rw [Prod.mk.injEq] at hb
              rw [hb.2] at hrem
              exact absurd rfl hrem
            · exact ihr.mpr ⟨c1, hc, h1, h2, h3, b, hb⟩

theorem findCookie_removeCookie_self (st : Store) (d p : Option Str) (k : Str) :
    findCookie (removeCookie st d p k) d p k = none := by
  unfold findCookie removeCookie
  rw [List.find?_eq_none]
  intro a ha
  have := (List.mem_filter.mp ha).2
  simp at this
  simp [this]

theorem findCookie_none_remove (st : Store) (d p : Option Str) (k : Str)
    (d' p' : Option Str) (k' : Str) (h : findCookie st d p k = none) :
    findCookie (removeCookie st d' p' k') d p k = none := by
  unfold findCookie removeCookie
  rw [List.find?_eq_none]
  intro a ha
  have hmem := (List.mem_filter.mp ha).1
  unfold findCookie at h
  rw [List.find?_eq_none] at h
  exact h a hmem

theorem findCookie_none_fold (rems : List (Option Str × Option Str × Str)) (st : Store)
    (d p : Option Str) (k : Str) (h : findCookie st d p k = none) :
    findCookie (rems.foldl (fun s r => removeCookie s r.1 r.2.1 r.2.2) st) d p k = none := by
  induction rems generalizing st with
  | nil => exact h
  | cons r t ih =>
    rw [List.foldl_cons]
    exact ih _ (findCookie_none_remove _ _ _ _ _ _ _ h)

theorem findCookie_fold_remove (rems : List (Option Str × Option Str × Str)) (st : Store)
    (d p : Option Str) (k : Str) (h : (d, p, k) ∈ rems) :
    findCookie (rems.foldl (fun s r => removeCookie s r.1 r.2.1 r.2.2) st) d p k = none := by
  induction rems generalizing st with
  | nil => exact absurd h (List.not_mem_nil _)
  | cons r t ih =>
    rw [List.foldl_cons]
    rcases List.mem_cons.mp h with hr | hr
    · subst hr
      exact findCookie_none_fold _ _ _ _ _ (findCookie_removeCookie_self _ _ _ _)
    · exact ih _ hr

/-- C2 (amended): `getCookies` returns exactly the candidates from the
store that pass the five filters — host scope (exact equality when
`hostOnly`, else `domainMatch`), path-match unless `allPaths`, `secure`
only in a secure context, `httpOnly` only in an HTTP context, and, with
expiry checking on, `expiryTime()` strictly after `now` — each returned
with `lastAccessed` touched; a removal is requested from the store (its
result necessarily ignored) exactly for candidates that pass the
*preceding* four filters and are expired, and every such candidate is
gone from the resulting store. -/
theorem getCookies_filter_semantics :
    (∀ (host : Option Str) (path : Str) (secure http expireCheck allPaths : Bool)
        (now currentMs : Int) (c : Cookie) (b r : Bool),
      matchingCookie host path secure http expireCheck allPaths now currentMs c
        = some (b, r) →
      ((b = true ↔ (FilterOK host path secure http allPaths c ∧
          (expireCheck = true →
            ∃ et, c.expiryTime currentMs none = some et ∧ et.leInt now = false))) ∧
       (r = true ↔ (FilterOK host path secure http allPaths c ∧ expireCheck = true ∧
          ∃ et, c.expiryTime currentMs none = some et ∧ et.leInt now = true)))) ∧
    (∀ (ps : Str → Bool) (jar : CookieJar) (ctx : Context) (opts : GetCookiesOptions)
        (currentMs : Int) (res : List Cookie) (st' : Store),
      jar.getCookies ps ctx opts currentMs = some (res, st') →
      (∀ c, c ∈ res ↔
        ∃ c0, c0 ∈ findCookiesInStore ps jar.store (deriveGetCtx ctx opts currentMs).host
            (if (deriveGetCtx ctx opts currentMs).allPaths then none
             else some (deriveGetCtx ctx opts currentMs).path) ∧
          (∃ r, matchingCookie (deriveGetCtx ctx opts currentMs).host
            (deriveGetCtx ctx opts currentMs).path
            (deriveGetCtx ctx opts currentMs).secure
            (deriveGetCtx ctx opts currentMs).http
            (deriveGetCtx ctx opts currentMs).expireCheck
            (deriveGetCtx ctx opts currentMs).allPaths
            (deriveGetCtx ctx opts currentMs).now currentMs c0 = some (true, r)) ∧
          c = { c0 with lastAccessed := some currentMs }) ∧
      (∀ c0, c0 ∈ findCookiesInStore ps jar.store (deriveGetCtx ctx opts currentMs).host
            (if (deriveGetCtx ctx opts currentMs).allPaths then none
             else some (deriveGetCtx ctx opts currentMs).path) →
        (∃ b, matchingCookie (deriveGetCtx ctx opts currentMs).host
            (deriveGetCtx ctx opts currentMs).path
            (deriveGetCtx ctx opts currentMs).secure
            (deriveGetCtx ctx opts currentMs).http
            (deriveGetCtx ctx opts currentMs).expireCheck
            (deriveGetCtx ctx opts currentMs).allPaths
            (deriveGetCtx ctx opts currentMs).now currentMs c0 = some (b, true)) →
        findCookie st' c0.domain c0.path c0.key = none)) := by
  refine ⟨fun host path secure http ec ap now cur c b r h =>
    matchingCookie_iff host path secure http ec ap now cur c b r h, ?_⟩
  intro ps jar ctx opts currentMs res st' hrun
  simp only [CookieJar.getCookies] at hrun
  cases hrf : runFilter (deriveGetCtx ctx opts currentMs).host
      (deriveGetCtx ctx opts currentMs).path (deriveGetCtx ctx opts currentMs).secure
      (deriveGetCtx ctx opts currentMs).http (deriveGetCtx ctx opts currentMs).expireCheck
      (deriveGetCtx ctx opts currentMs).allPaths (deriveGetCtx ctx opts currentMs).now
      currentMs (findCookiesInStore ps jar.store (deriveGetCtx ctx opts currentMs).host
        (if (deriveGetCtx ctx opts currentMs).allPaths then none
         else some (deriveGetCtx ctx opts currentMs).path)) with
  | none => rw [hrf] at hrun; exact Option.noConfusion hrun
  | some kr =>
    rw [hrf] at hrun
    simp only [Option.some_inj, Prod.mk.injEq] at hrun
    obtain ⟨hres, hst⟩ := hrun
    subst hres
    subst hst
    have hrf' : runFilter (deriveGetCtx ctx opts currentMs).host
        (deriveGetCtx ctx opts currentMs).path (deriveGetCtx ctx opts currentMs).secure
        (deriveGetCtx ctx opts currentMs).http (deriveGetCtx ctx opts currentMs).expireCheck
        (deriveGetCtx ctx opts currentMs).allPaths (deriveGetCtx ctx opts currentMs).now
        currentMs (findCookiesInStore ps jar.store (deriveGetCtx ctx opts currentMs).host
          (if (deriveGetCtx ctx opts currentMs).allPaths then none
           else some (deriveGetCtx ctx opts currentMs).path)) = some (kr.1, kr.2) := by
      rw [hrf]
    constructor
    · intro c
      constructor
      · intro hc
        obtain ⟨c0, hc0, hceq⟩ := List.mem_map.mp hc
        have hc0' : c0 ∈ kr.1 := by
          by_cases hsort : opts.sort ≠ some false
          · rw [if_pos hsort] at hc0
            exact List.mem_mergeSort.mp hc0
          · rw [if_neg hsort] at hc0
            exact hc0
        obtain ⟨hmem, r, hr⟩ := (runFilter_mem_kept _ _ _ _ _ _ _ _ _ _ _ hrf' c0).mp hc0'
        exact ⟨c0, hmem, ⟨r, hr⟩, hceq.symm⟩
      · rintro ⟨c0, hmem, ⟨r, hr⟩, hceq⟩
        subst hceq
        apply List.mem_map_of_mem
        have hin : c0 ∈ kr.1 :=
          (runFilter_mem_kept _ _ _ _ _ _ _ _ _ _ _ hrf' c0).mpr ⟨hmem, r, hr⟩
        by_cases hsort : opts.sort ≠ some false
        · rw [if_pos hsort]
          exact List.mem_mergeSort.mpr hin
        · rw [if_neg hsort]
          exact hin
    · rintro c0 hmem ⟨b, hb⟩
      exact findCookie_fold_remove _ _ _ _ _
        ((runFilter_mem_rems _ _ _ _ _ _ _ _ _ _ _ hrf' c0.domain c0.path c0.key).mpr
          ⟨c0, hmem, rfl, rfl, rfl, b, hb⟩)

/-- An expired (`Max-Age=-1`) *secure* cookie: a candidate for an `http:`
request that the secure filter drops before the expiry step runs. -/
def wExpired : Cookie :=
  { key := ['s'], value := ['1'], secure := true, maxAge := .fin (-1),
    domain := some "example.com".toList, path := some ['/'],
    hostOnly := some true, creation := some 50 }

/-- The same expired cookie without the `Secure` flag: it reaches the
expiry step and is evicted. -/
def wExpR : Cookie :=
  { key := ['s'], value := ['1'], maxAge := .fin (-1),
    domain := some "example.com".toList, path := some ['/'],
    hostOnly := some true, creation := some 50 }

/-- C2 counterexample: `wExpired` is a candidate whose `expiryTime()` is
at or before `now`, yet `getCookies` over `http://example.com/` requests
no removal — the cookie is still in the resulting store — because the
secure filter drops it before the expiry step; the claim's "every
candidate whose expiryTime() is at or before now ... its removal is
requested" is therefore false as stated. -/
theorem getCookies_expired_removal_counterexample :
    CookieJar.getCookies wPs { store := [wExpired] } wCtx { sort := some false } 300
      = some ([], [wExpired]) ∧
    wExpired ∈ findCookiesInStore wPs [wExpired]
      (deriveGetCtx wCtx { sort := some false } 300).host
      (if (deriveGetCtx wCtx { sort := some false } 300).allPaths then none
       else some (deriveGetCtx wCtx { sort := some false } 300).path) ∧
    (∃ et, wExpired.expiryTime 300 none = some et ∧
      et.leInt (deriveGetCtx wCtx { sort := some false } 300).now = true) := by
  refine ⟨by decide, by decide, ExtTime.negInf, by decide, by decide⟩

theorem getCookies_filter_semantics_witness :
    findCookie ([] : Store) wExpR.domain wExpR.path wExpR.key = none := by
  have h := getCookies_filter_semantics.2 wPs { store := [wExpR] } wCtx
    { sort := some false } 300 [] [] (by decide)
  exact h.2 wExpR (by decide) ⟨false, by decide⟩

/-! ## C10: a reference-level rendering of setCookie

JS object identity is made observable by placing cookies on a heap
(`List Cookie`, a reference is an index) and letting the store hold
references.  `setCookieRef` is the same source function (lines 995–1126)
with the in-place field assignments written as heap updates at the input
reference, so "mutates that same object" and "not a clone" become
provable statements. -/

abbrev Heap := List Cookie

abbrev Ref := Nat

def heapGet (h : Heap) (r : Ref) : Cookie := h.getD r {}

def heapSet (h : Heap) (r : Ref) (c : Cookie) : Heap := h.set r c

abbrev RefStore := List Ref

/-- Modelled from the spec: the store's `find` on a reference store. -/
def findCookieRef (heap : Heap) (st : RefStore) (d p : Option Str) (k : Str) : Option Ref :=
  st.find? (fun r => idMatches (heapGet heap r) d p k)

/-- Modelled from the spec: the store's `put` on a reference store; the
stored value is the *reference*. -/
def putCookieRef (heap : Heap) (st : RefStore) (r : Ref) : RefStore :=
  st.filter (fun x => !idMatches (heapGet heap x) (heapGet heap r).domain
    (heapGet heap r).path (heapGet heap r).key) ++ [r]

inductive SetCookieRefOutcome where
  | err (e : SetCookieError)
  | ignoredErr
  | ok (r : Ref)
deriving Repr, DecidableEq

def failWithRef (opts : SetCookieOptions) (e : SetCookieError) : SetCookieRefOutcome :=
  if opts.ignoreError then .ignoredErr else .err e

/-- The `withCookie` continuation on the heap: the mutations of S5.3 step
11 write through the reference `r`; the very same reference is handed to
the store and to the completion. -/
def withCookieRef (opts : SetCookieOptions) (heap : Heap) (store : RefStore)
    (now : Int) (r : Ref) : Option Ref → SetCookieRefOutcome × Heap × RefStore
  | some oldRef =>
    if opts.http = some false ∧ (heapGet heap oldRef).httpOnly then
      (failWithRef opts .httpOnlyOld, heap, store)
    else
      let old := heapGet heap oldRef
      let heap2 := heapSet heap r { heapGet heap r with
        creation := old.creation
        creationIndex := old.creationIndex
        lastAccessed := some now }
      (.ok r, heap2, putCookieRef heap2 store r)
  | none =>
    let heap2 := heapSet heap r
      { heapGet heap r with creation := some now, lastAccessed := some now }
    (.ok r, heap2, putCookieRef heap2 store r)

/-- `setCookie` over the heap.  A string input allocates a fresh object
through the parser; a `Cookie`-instance input is a reference, and every
policy assignment (`hostOnly`, `domain`, `path`, `pathIsDefault`,
`creation`, `creationIndex`, `lastAccessed`) is a write through it. -/
def setCookieRef (ps : Str → Bool) (heap : Heap) (store : RefStore)
    (rejectPS loose0 : Bool) (input : Sum Str Ref) (ctx : Context)
    (opts : SetCookieOptions) (defaultNow : Int) (mintIdx : Nat) :
    SetCookieRefOutcome × Heap × RefStore :=
  let host := canonicalDomain ctx.hostname
  let loose := opts.loose.getD loose0
  let pr : Heap × Option Ref := match input with
    | Sum.inr r => (heap, some r)
    | Sum.inl s =>
      match parse loose s defaultNow mintIdx with
      | some c => (heap ++ [c], some heap.length)
      | none => (heap, none)
  match pr.2 with
  | none => (failWithRef opts .parseFailure, pr.1, store)
  | some r =>
    let heap1 := pr.1
    let now := opts.now.getD defaultNow
    let cookie := heapGet heap1 r
    if rejectPS ∧ truthyStr cookie.domain ∧ getPublicSuffix ps cookie.cdomain = none then
      (failWithRef opts .publicSuffix, heap1, store)
    else
      match (if truthyStr cookie.domain then
               (if !truthyB (domainMatch host cookie.cdomain false) then none
                else some (if cookie.hostOnly = none
                  then { cookie with hostOnly := some false } else cookie))
             else some { cookie with
               hostOnly := some true
               domain := host }) with
      | none => (failWithRef opts .domainMismatch, heap1, store)
      | some c1 =>
        let heap2 := heapSet heap1 r c1
        let c2 := if pathNeedsDefault c1.path then
            { c1 with path := some (defaultPath ctx.pathname), pathIsDefault := some true }
          else c1
        let heap3 := heapSet heap2 r c2
        if opts.http = some false ∧ c2.httpOnly then
          (failWithRef opts .httpOnlyNew, heap3, store)
        else
          withCookieRef opts heap3 store now r
            (findCookieRef heap3 store c2.domain c2.path c2.key)

theorem failWithRef_ne_ok (opts : SetCookieOptions) (e : SetCookieError) (r : Ref) :
    failWithRef opts e ≠ SetCookieRefOutcome.ok r := by
  unfold failWithRef; split <;> simp

theorem failWithRef_triple_ne_ok {opts : SetCookieOptions} {e : SetCookieError}
    {h2 : Heap} {s2 : RefStore} {r' : Ref} {h' : Heap} {s' : RefStore}
    (h : (failWithRef opts e, h2, s2) = (SetCookieRefOutcome.ok r', h', s')) : False := by
  rw [Prod.mk.injEq] at h
  exact failWithRef_ne_ok _ _ _ h.1

theorem heapGet_set_ne (h : Heap) (r i : Ref) (c : Cookie) (hne : i ≠ r) :
    heapGet (heapSet h r c) i = heapGet h i := by
  unfold heapGet heapSet
  rw [List.getD_eq_getElem?_getD, List.getD_eq_getElem?_getD,
    List.getElem?_set_ne (Ne.symm hne)]

theorem heapGet_set_self (h : Heap) (r : Ref) (c : Cookie) (hr : r < h.length) :
    heapGet (heapSet h r c) r = c := by
  unfold heapGet heapSet
  rw [List.getD_eq_getElem?_getD, List.getElem?_set]
  simp [hr]

theorem withCookieRef_ok (opts : SetCookieOptions) (heap : Heap) (store : RefStore)
    (now : Int) (r : Ref) (oldOpt : Option Ref) (r' : Ref) (heap' : Heap) (st' : RefStore)
    (h : withCookieRef opts heap store now r oldOpt = (SetCookieRefOutcome.ok r', heap', st')) :
    r' = r ∧ (∃ c3, heap' = heapSet heap r c3 ∧
      c3.key = (heapGet heap r).key ∧ c3.value = (heapGet heap r).value ∧
      c3.expires = (heapGet heap r).expires ∧ c3.maxAge = (heapGet heap r).maxAge ∧
      c3.domain = (heapGet heap r).domain ∧ c3.path = (heapGet heap r).path ∧
      c3.secure = (heapGet heap r).secure ∧ c3.httpOnly = (heapGet heap r).httpOnly ∧
      c3.extensions = (heapGet heap r).extensions ∧
      c3.hostOnly = (heapGet heap r).hostOnly ∧
      c3.pathIsDefault = (heapGet heap r).pathIsDefault) ∧
    st' = putCookieRef heap' store r := by
  cases oldOpt with
  | some oldRef =>
    simp only [withCookieRef] at h
    split at h
    · exact (failWithRef_triple_ne_ok h).elim
    · rw [Prod.mk.injEq, Prod.mk.injEq] at h
      obtain ⟨h1, h2, h3⟩ := h
      injection h1 with h1
      subst h1
      subst h2
      exact ⟨rfl, ⟨_, rfl, rfl, rfl, rfl, rfl, rfl, rfl, rfl, rfl, rfl, rfl, rfl⟩, h3.symm⟩
  | none =>
    simp only [withCookieRef] at h
    rw [Prod.mk.injEq, Prod.mk.injEq] at h
    obtain ⟨h1, h2, h3⟩ := h
    injection h1 with h1
    subst h1
    subst h2
    exact ⟨rfl, ⟨_, rfl, rfl, rfl, rfl, rfl, rfl, rfl, rfl, rfl, rfl, rfl, rfl⟩, h3.symm⟩

/-- The common tail of a successful heap-level run: after the two policy
writes (`c1`, then `c2`) through `r` and the `withCookie` continuation,
the returned reference is `r` itself, the heap kept its size, only index
`r` changed, the store holds `r`, and the seven non-policy fields of the
object at `r` are those of the original. -/
theorem setCookieRef_tail (opts : SetCookieOptions) (heap : Heap) (store : RefStore)
    (now : Int) (r : Ref) (c1 c2 : Cookie) (r' : Ref) (heap' : Heap) (st' : RefStore)
    (hr : r < heap.length)
    (hf : c2.key = (heapGet heap r).key ∧ c2.value = (heapGet heap r).value ∧
      c2.expires = (heapGet heap r).expires ∧ c2.maxAge = (heapGet heap r).maxAge ∧
      c2.secure = (heapGet heap r).secure ∧ c2.httpOnly = (heapGet heap r).httpOnly ∧
      c2.extensions = (heapGet heap r).extensions)
    (hrun : withCookieRef opts (heapSet (heapSet heap r c1) r c2) store now r
      (findCookieRef (heapSet (heapSet heap r c1) r c2) store c2.domain c2.path c2.key)
      = (SetCookieRefOutcome.ok r', heap', st')) :
    r' = r ∧
    heap'.length = heap.length ∧
    (∀ i, i ≠ r → heapGet heap' i = heapGet heap i) ∧
    r ∈ st' ∧
    ((heapGet heap' r).key = (heapGet heap r).key ∧
     (heapGet heap' r).value = (heapGet heap r).value ∧
     (heapGet heap' r).expires = (heapGet heap r).expires ∧
     (heapGet heap' r).maxAge = (heapGet heap r).maxAge ∧
     (heapGet heap' r).secure = (heapGet heap r).secure ∧
     (heapGet heap' r).httpOnly = (heapGet heap r).httpOnly ∧
     (heapGet heap' r).extensions = (heapGet heap r).extensions) := by
  obtain ⟨hrr, ⟨c3, hheap, f1, f2, f3, f4, _, _, f7, f8, f9, _, _⟩, hstore⟩ :=
    withCookieRef_ok _ _ _ _ _ _ _ _ _ hrun
  subst hrr
  have hlen2 : (heapSet (heapSet heap r' c1) r' c2).length = heap.length := by
    unfold heapSet
    rw [List.length_set, List.length_set]
  have hr2 : r' < (heapSet (heapSet heap r' c1) r' c2).length := by
    rw [hlen2]; exact hr
  have hr1 : r' < (heapSet heap r' c1).length := by
    unfold heapSet
    rw [List.length_set]
    exact hr
  have hget2 : heapGet (heapSet (heapSet heap r' c1) r' c2) r' = c2 :=
    heapGet_set_self _ _ _ hr1
  have hget' : heapGet heap' r' = c3 := by
    rw [hheap]
    exact heapGet_set_self _ _ _ hr2
  rw [hget2] at f1 f2 f3 f4 f7 f8 f9
  refine ⟨rfl, ?_, ?_, ?_, ?_⟩
  · rw [hheap]
    unfold heapSet
    rw [List.length_set]
    exact hlen2
  · intro i hi
    rw [hheap, heapGet_set_ne _ _ _ _ hi, heapGet_set_ne _ _ _ _ hi,
      heapGet_set_ne _ _ _ _ hi]
  · rw [hstore]
    exact List.mem_append_right _ (List.mem_singleton.mpr rfl)
  · rw [hget']
    exact ⟨f1.trans hf.1, f2.trans hf.2.1, f3.trans hf.2.2.1, f4.trans hf.2.2.2.1,
      f7.trans hf.2.2.2.2.1, f8.trans hf.2.2.2.2.2.1, f9.trans hf.2.2.2.2.2.2⟩

/-- C10: on a successful run with a `Cookie`-instance input, `setCookie`
returns the very reference it was given (the completion's cookie *is* the
input object), the store holds that same reference, the heap gained no
new object (nothing was cloned), every other object is untouched, and on
the input object only the policy fields were assigned — `key`, `value`,
`expires`, `maxAge`, `secure`, `httpOnly` and `extensions` are those of
the original object. -/
theorem setCookieRef_same_object (ps : Str → Bool) (heap : Heap) (store : RefStore)
    (rejectPS loose0 : Bool) (ctx : Context) (opts : SetCookieOptions)
    (defaultNow : Int) (mintIdx : Nat) (r r' : Ref) (heap' : Heap) (st' : RefStore)
    (hr : r < heap.length)
    (hrun : setCookieRef ps heap store rejectPS loose0 (Sum.inr r) ctx opts defaultNow
      mintIdx = (SetCookieRefOutcome.ok r', heap', st')) :
    r' = r ∧
    heap'.length = heap.length ∧
    (∀ i, i ≠ r → heapGet heap' i = heapGet heap i) ∧
    r ∈ st' ∧
    ((heapGet heap' r).key = (heapGet heap r).key ∧
     (heapGet heap' r).value = (heapGet heap r).value ∧
     (heapGet heap' r).expires = (heapGet heap r).expires ∧
     (heapGet heap' r).maxAge = (heapGet heap r).maxAge ∧
     (heapGet heap' r).secure = (heapGet heap r).secure ∧
     (heapGet heap' r).httpOnly = (heapGet heap r).httpOnly ∧
     (heapGet heap' r).extensions = (heapGet heap r).extensions) := by
  simp only [setCookieRef] at hrun
  split at hrun
  · exact (failWithRef_triple_ne_ok hrun).elim
  · split at hrun
    · exact (failWithRef_triple_ne_ok hrun).elim
    · rename_i c1 hdom
      have hc1 : c1.key = (heapGet heap r).key ∧ c1.value = (heapGet heap r).value ∧
          c1.expires = (heapGet heap r).expires ∧ c1.maxAge = (heapGet heap r).maxAge ∧
          c1.secure = (heapGet heap r).secure ∧ c1.httpOnly = (heapGet heap r).httpOnly ∧
          c1.extensions = (heapGet heap r).extensions := by
        by_cases ht : truthyStr (heapGet heap r).domain = true
        · rw [if_pos ht] at hdom
          split at hdom
          · exact Option.noConfusion hdom
          · injection hdom with hdom
            subst hdom
            split <;> exact ⟨rfl, rfl, rfl, rfl, rfl, rfl, rfl⟩
        · rw [if_neg ht] at hdom
          injection hdom with hdom
          subst hdom
          exact ⟨rfl, rfl, rfl, rfl, rfl, rfl, rfl⟩
      split at hrun
      all_goals split at hrun
      any_goals exact (failWithRef_triple_ne_ok hrun).elim
      all_goals
        exact setCookieRef_tail opts heap store _ r c1 _ r' heap' st' hr
          (by exact ⟨hc1.1, hc1.2.1, hc1.2.2.1, hc1.2.2.2.1, hc1.2.2.2.2.1,
            hc1.2.2.2.2.2.1, hc1.2.2.2.2.2.2⟩) hrun

/-- The heap object mutated by the C10 witness run. -/
def wRefFinal : Cookie :=
  { key := ['a'], value := ['2'], domain := some "example.com".toList,
    path := some ['/'], hostOnly := some true, pathIsDefault := some true,
    creation := some 100, lastAccessed := some 100, creationIndex := 0 }

theorem setCookieRef_same_object_witness :
    (0 : Ref) = 0 ∧
    ([wRefFinal] : Heap).length = ([{ key := ['a'], value := ['2'] }] : Heap).length ∧
    (∀ i, i ≠ 0 → heapGet [wRefFinal] i = heapGet [{ key := ['a'], value := ['2'] }] i) ∧
    (0 : Ref) ∈ ([0] : RefStore) ∧
    ((heapGet [wRefFinal] 0).key = (heapGet [{ key := ['a'], value := ['2'] }] 0).key ∧
     (heapGet [wRefFinal] 0).value = (heapGet [{ key := ['a'], value := ['2'] }] 0).value ∧
     (heapGet [wRefFinal] 0).expires
       = (heapGet [{ key := ['a'], value := ['2'] }] 0).expires ∧
     (heapGet [wRefFinal] 0).maxAge = (heapGet [{ key := ['a'], value := ['2'] }] 0).maxAge ∧
     (heapGet [wRefFinal] 0).secure = (heapGet [{ key := ['a'], value := ['2'] }] 0).secure ∧
     (heapGet [wRefFinal] 0).httpOnly
       = (heapGet [{ key := ['a'], value := ['2'] }] 0).httpOnly ∧
     (heapGet [wRefFinal] 0).extensions
       = (heapGet [{ key := ['a'], value := ['2'] }] 0).extensions) :=
  setCookieRef_same_object wPs [{ key := ['a'], value := ['2'] }] [] true false wCtx {}
    100 7 0 0 [wRefFinal] [0] (by decide) (by decide)

theorem validate_characterization_witness :
    (({ value := ['a'], maxAge := .fin 5 } : Cookie).value ≠ [] ∧
      ∀ ch ∈ ({ value := ['a'], maxAge := .fin 5 } : Cookie).value,
        isCookieOctet ch = true) :=
  ((validate_characterization wPs { value := ['a'], maxAge := .fin 5 }).mp (by decide)).1

theorem setCookie_failure_modes_witness :
    (∃ c st', CookieJar.setCookie wPs {} (Sum.inl "a=1".toList) wCtx {} 100 1
      = (SetCookieOutcome.ok c, st')) ∨
    (({} : SetCookieOptions).ignoreError = false ∧
      ∃ e, CookieJar.setCookie wPs {} (Sum.inl "a=1".toList) wCtx {} 100 1
        = (SetCookieOutcome.err e, ({} : CookieJar).store)) ∨
    (({} : SetCookieOptions).ignoreError = true ∧
      CookieJar.setCookie wPs {} (Sum.inl "a=1".toList) wCtx {} 100 1
        = (SetCookieOutcome.ignoredErr, ({} : CookieJar).store)) :=
  setCookie_failure_modes.1 wPs {} (Sum.inl "a=1".toList) wCtx {} 100 1
